import Mathlib

/-!
Verification of the SuiviVentes sales/inventory tracker.

This file gives a shallow embedding, in Lean, of the import pipeline
(header normalization, row validation, amount and date parsing, duplicate
detection) and of the storage facade (localStorage fallback, Supabase
remote path with its SQL trigger, read-only mode, migration), and proves
the behavioural properties stated in the specification against it.

Modelling conventions:
* JavaScript numbers are modelled as exact rationals (`Rat`).  None of the
  verified properties depend on binary floating-point rounding.
* JavaScript strings are modelled as Lean `String`s; the character-level
  operations (replace, trim, split, toLowerCase on the Latin-1 range) are
  re-implemented structurally on `List Char` so that they evaluate by
  kernel reduction.
* `crypto.randomUUID()` is modelled as the empty string (the identifier is
  never inspected by any verified property); `new Date().toISOString()` is
  threaded through as an explicit `now` parameter.
* Optional (`string | undefined`) fields are modelled as `Option String`.
-/

namespace SuiviVentes

/-! ## Data model (src/types/index.ts) -/

/-- `Sale` record, from src/types/index.ts. -/
structure Sale where
  id : String
  date : String
  clientName : String
  productName : String
  quantity : Rat
  unitPrice : Rat
  totalAmount : Rat
  paymentMethod : String
  notes : Option String
  seller : Option String
  register : Option String
  category : Option String
deriving DecidableEq, Repr

/-- `StockItem` record, from src/types/index.ts. -/
structure StockItem where
  id : String
  name : String
  category : String
  subcategory : String
  currentStock : Rat
  alertThreshold : Rat
  initialStock : Rat
  unitPrice : Rat
deriving DecidableEq, Repr

/-- Direction of a stock movement: the string union type in the source. -/
inductive MovementType where
  | mIn
  | mOut
deriving DecidableEq, Repr

/-- `StockMovement` record, from src/types/index.ts. -/
structure StockMovement where
  id : String
  date : String
  productId : String
  type : MovementType
  quantity : Rat
  reason : String
  register : Option String
  seller : Option String
deriving DecidableEq, Repr

/-! ## Duplicate detection (Import component, findDuplicates) -/

/-- `DuplicateInfo` from the Import component (specialised to sales). -/
structure DuplicateInfo where
  item : Sale
  isDuplicate : Bool
  shouldKeep : Bool
deriving DecidableEq, Repr

/-- The seven-field comparison inside `findDuplicates`: strict equality on
date, product name, quantity, seller, register and category, and absolute
difference below 0.01 on the total amount. -/
def saleMatches (existingSale newSale : Sale) : Bool :=
  existingSale.date == newSale.date &&
  existingSale.productName == newSale.productName &&
  existingSale.quantity == newSale.quantity &&
  decide (|existingSale.totalAmount - newSale.totalAmount| < 1 / 100) &&
  existingSale.seller == newSale.seller &&
  existingSale.register == newSale.register &&
  existingSale.category == newSale.category

/-- `findDuplicates` from the Import component.  The `await getSales()`
call is made explicit as the `existingSales` argument. -/
def findDuplicates (newSales existingSales : List Sale) : List DuplicateInfo :=
  newSales.map fun newSale =>
    { item := newSale
      isDuplicate := existingSales.any fun existingSale => saleMatches existingSale newSale
      shouldKeep := !(existingSales.any fun existingSale => saleMatches existingSale newSale) }

/-- C2: a candidate sale is flagged duplicate iff some existing sale agrees
with it exactly on date, product name, quantity, seller, register and
category and differs on total amount by strictly less than 0.01; the
returned `shouldKeep` flag is the negation of the duplicate flag, and the
result lists exactly the candidates in order. -/
theorem findDuplicates_spec (newSales existingSales : List Sale)
    (info : DuplicateInfo) (hmem : info ∈ findDuplicates newSales existingSales) :
    (info.isDuplicate = true ↔ ∃ e ∈ existingSales,
        e.date = info.item.date ∧
        e.productName = info.item.productName ∧
        e.quantity = info.item.quantity ∧
        |e.totalAmount - info.item.totalAmount| < 1 / 100 ∧
        e.seller = info.item.seller ∧
        e.register = info.item.register ∧
        e.category = info.item.category) ∧
    info.shouldKeep = !info.isDuplicate ∧
    info.item ∈ newSales ∧
    (findDuplicates newSales existingSales).map DuplicateInfo.item = newSales := by
  obtain ⟨c, hc, rfl⟩ := List.mem_map.mp hmem
  refine ⟨?_, by simp, by simpa using hc,
    by simp [findDuplicates, Function.comp_def]⟩
  simp only [List.any_eq_true, saleMatches, Bool.and_eq_true, beq_iff_eq,
    decide_eq_true_eq, and_assoc]

/-- Concrete sale used by the duplicate-detection witness. -/
def c2sale : Sale :=
  { id := "1", date := "2024-01-01", clientName := "Client Import",
    productName := "Coca-Cola", quantity := 2, unitPrice := 3, totalAmount := 6,
    paymentMethod := "cash", notes := none, seller := some "Alice",
    register := some "R1", category := some "Boissons" }

theorem findDuplicates_spec_witness :
    ((DuplicateInfo.mk c2sale true false).isDuplicate = true ↔
      ∃ e ∈ [c2sale],
        e.date = (DuplicateInfo.mk c2sale true false).item.date ∧
        e.productName = (DuplicateInfo.mk c2sale true false).item.productName ∧
        e.quantity = (DuplicateInfo.mk c2sale true false).item.quantity ∧
        |e.totalAmount - (DuplicateInfo.mk c2sale true false).item.totalAmount| < 1 / 100 ∧
        e.seller = (DuplicateInfo.mk c2sale true false).item.seller ∧
        e.register = (DuplicateInfo.mk c2sale true false).item.register ∧
        e.category = (DuplicateInfo.mk c2sale true false).item.category) ∧
    (DuplicateInfo.mk c2sale true false).shouldKeep =
      !(DuplicateInfo.mk c2sale true false).isDuplicate ∧
    (DuplicateInfo.mk c2sale true false).item ∈ [c2sale] ∧
    (findDuplicates [c2sale] [c2sale]).map DuplicateInfo.item = [c2sale] :=
  findDuplicates_spec [c2sale] [c2sale] (DuplicateInfo.mk c2sale true false) (by
    simp only [findDuplicates, List.map_cons, List.map_nil, List.any_cons, List.any_nil]
    norm_num [saleMatches, c2sale])

/-! ## Character and string utilities modelling JavaScript semantics -/

/-- The JavaScript whitespace class (the members that can occur in this
code base: space, tab, line feed, carriage return, vertical tab, form
feed, no-break space). -/
def isJsWhitespace (c : Char) : Bool :=
  c == ' ' || c == '\t' || c == '\n' || c == '\r' ||
  c == Char.ofNat 11 || c == Char.ofNat 12 || c == Char.ofNat 160

/-- `String.prototype.trim`. -/
def jsTrimChars (cs : List Char) : List Char :=
  ((cs.dropWhile isJsWhitespace).reverse.dropWhile isJsWhitespace).reverse

/-- Value of a decimal digit character, `none` for non-digits. -/
def charDigit (c : Char) : Option Nat :=
  if '0' ≤ c && c ≤ '9' then some (c.toNat - 48) else none

/-- Longest prefix of decimal digits, returned as digit values together
with the unread remainder. -/
def takeDigits : List Char → List Nat × List Char
  | [] => ([], [])
  | c :: rest =>
    match charDigit c with
    | some d =>
      let p := takeDigits rest
      (d :: p.1, p.2)
    | none => ([], c :: rest)

/-- Value of a most-significant-first digit list. -/
def digitsVal (ds : List Nat) : Nat := ds.foldl (fun a d => 10 * a + d) 0

/-- Value of a digit list read as a fractional part. -/
def fracVal (ds : List Nat) : Rat := (digitsVal ds : Rat) / (10 : Rat) ^ ds.length

/-- Optional leading sign of a numeric literal: the flag records whether
the value is negated, the remainder is the unread input. -/
def splitSign (cs : List Char) : Bool × List Char :=
  match cs with
  | [] => (false, [])
  | c :: r => if c = '-' then (true, r) else if c = '+' then (false, r) else (false, c :: r)

/-- Scale factor of an optional exponent suffix of a JavaScript numeric
literal; a malformed suffix is ignored (scale 1), as `parseFloat` stops
reading there. -/
def parseExpTail (cs : List Char) : Rat :=
  let p := splitSign cs
  let ds := (takeDigits p.2).1
  if ds.isEmpty then 1
  else if p.1 then 1 / (10 : Rat) ^ digitsVal ds else (10 : Rat) ^ digitsVal ds

/-- Dispatch on the `e`/`E` marker of an exponent suffix. -/
def parseExponent (cs : List Char) : Rat :=
  match cs with
  | [] => 1
  | c :: r => if c = 'e' ∨ c = 'E' then parseExpTail r else 1

/-- Model of JavaScript `parseFloat` on an explicit character list:
optional sign, then either `digits [. digits]` or `. digits`, then an
optional well-formed exponent; the longest valid prefix is read and
`none` models `NaN`.  (The `Infinity` literal and non-decimal forms are
not modelled; no caller of the repository feeds them.) -/
def parseFloatCore (cs : List Char) : Option Rat :=
  let sp := splitSign cs
  let ip := takeDigits sp.2
  let intOnly : Option Rat :=
    if ip.1.isEmpty then none
    else
      let v := (digitsVal ip.1 : Rat) * parseExponent ip.2
      some (if sp.1 then -v else v)
  match ip.2 with
  | [] => intOnly
  | c :: r =>
    if c = '.' then
      let fp := takeDigits r
      if ip.1.isEmpty && fp.1.isEmpty then none
      else
        let v := ((digitsVal ip.1 : Rat) + fracVal fp.1) * parseExponent fp.2
        some (if sp.1 then -v else v)
    else intOnly

/-- `parseFloat` also skips leading whitespace. -/
def parseFloatJS (cs : List Char) : Option Rat :=
  parseFloatCore (cs.dropWhile isJsWhitespace)

/-! ## Amount parsing (Import component, parseAmount) -/

/-- Replacement of the first comma by a period, the JavaScript semantics
of `replace(",", ".")` with a plain string pattern. -/
def replaceFirstComma : List Char → List Char
  | [] => []
  | c :: rest => if c = ',' then '.' :: rest else c :: replaceFirstComma rest

/-- The normalisation pipeline of `parseAmount` on a trimmed string:
replace long dashes by ASCII minus, strip euro signs and whitespace,
replace the first comma by a period. -/
def amountPipeline (cs : List Char) : List Char :=
  replaceFirstComma
    (((jsTrimChars cs).map fun c => if c = '–' then '-' else c).filter
      fun c => !(c == '€') && !isJsWhitespace c)

/-- String branch of `parseAmount` from the Import component.  (The
numeric branch returns the number unchanged and is modelled at cell level
further below.)  A falsy input — the empty string — yields 0, and a
string whose normalised form `parseFloat` cannot read yields 0. -/
def parseAmountStr (s : String) : Rat :=
  if s = "" then 0
  else
    match parseFloatJS (amountPipeline s.toList) with
    | some q => q
    | none => 0

/-! ## Decimal rendering used to state the amount-parsing property -/

/-- The ten decimal digit characters. -/
def decDigitChar : Nat → Char
  | 0 => '0' | 1 => '1' | 2 => '2' | 3 => '3' | 4 => '4'
  | 5 => '5' | 6 => '6' | 7 => '7' | 8 => '8' | 9 => '9'
  | _ => '?'

/-- Least-significant-first decimal digits, by structural recursion on a
fuel bound so that the kernel can evaluate it. -/
def natDigitsAux : Nat → Nat → List Nat
  | 0, _ => []
  | _ + 1, 0 => []
  | fuel + 1, n + 1 => ((n + 1) % 10) :: natDigitsAux fuel ((n + 1) / 10)

/-- Most-significant-first decimal digit values of a natural number. -/
def natDigitsM (n : Nat) : List Nat :=
  if n = 0 then [0] else (natDigitsAux n n).reverse

theorem natDigitsAux_eq (fuel : Nat) : ∀ n ≤ fuel, natDigitsAux fuel n = Nat.digits 10 n := by
  induction fuel with
  | zero =>
    intro n hn
    have : n = 0 := by omega
    subst this
    rw [Nat.digits_zero]
    rfl
  | succ fuel ih =>
    intro n hn
    cases n with
    | zero => rw [Nat.digits_zero]; rfl
    | succ k =>
      have hdiv : (k + 1) / 10 ≤ fuel := by
        have := Nat.div_lt_self (Nat.succ_pos k) (by norm_num : 1 < 10)
        omega
      show ((k + 1) % 10) :: natDigitsAux fuel ((k + 1) / 10) = _
      rw [ih _ hdiv, Nat.digits_def' (by norm_num : 1 < 10) (Nat.succ_pos k)]

theorem natDigitsM_eq_digits (n : Nat) :
    natDigitsM n = if n = 0 then [0] else (Nat.digits 10 n).reverse := by
  rw [natDigitsM, natDigitsAux_eq n n (le_refl n)]

/-- Decimal numeral of a natural number. -/
def natChars (n : Nat) : List Char := (natDigitsM n).map decDigitChar

/-- Two-digit rendering of a value below 100. -/
def twoDigits (d : Nat) : List Nat := [d / 10, d % 10]

/-- A monetary string of the form `<int>,<2-digit> €`, with an optional
leading long dash as minus sign. -/
def euroChars (neg : Bool) (i d : Nat) : List Char :=
  (if neg then ['–'] else []) ++ natChars i ++ [','] ++
    (twoDigits d).map decDigitChar ++ [' '] ++ ['€']

/-- `euroChars`, packaged as a string. -/
def euroString (neg : Bool) (i d : Nat) : String := String.mk (euroChars neg i d)

/-! ## Lemmas on digit rendering and parsing -/

theorem decDigitChar_facts : ∀ d < 10,
    charDigit (decDigitChar d) = some d ∧
    decDigitChar d ≠ '–' ∧ decDigitChar d ≠ ',' ∧
    decDigitChar d ≠ '€' ∧ isJsWhitespace (decDigitChar d) = false ∧
    decDigitChar d ≠ '-' ∧ decDigitChar d ≠ '+' := by decide

theorem takeDigits_map_append (ds : List Nat) (hds : ∀ d ∈ ds, d < 10)
    (rest : List Char) (hr : ∀ c, rest.head? = some c → charDigit c = none) :
    takeDigits (ds.map decDigitChar ++ rest) = (ds, rest) := by
  induction ds with
  | nil =>
    cases rest with
    | nil => rfl
    | cons c r => simp [takeDigits, hr c rfl]
  | cons d tl ih =>
    have h10 := hds d (by simp)
    have hcd := (decDigitChar_facts d h10).1
    simp [takeDigits, hcd, ih (fun x hx => hds x (by simp [hx]))]

theorem foldl_digits_reverse (ds : List Nat) (a : Nat) :
    List.foldl (fun a d => 10 * a + d) a ds.reverse =
      a * 10 ^ ds.length + Nat.ofDigits 10 ds := by
  induction ds generalizing a with
  | nil => simp
  | cons d tl ih =>
    simp only [List.reverse_cons, List.foldl_append, ih, Nat.ofDigits_cons,
      List.foldl_cons, List.foldl_nil, List.length_cons]
    ring

theorem digitsVal_natDigitsM (n : Nat) : digitsVal (natDigitsM n) = n := by
  rw [natDigitsM_eq_digits]
  by_cases h : n = 0
  · subst h; rfl
  · simp only [h, if_false, digitsVal, foldl_digits_reverse,
      Nat.ofDigits_digits, Nat.zero_mul, Nat.zero_add]

theorem natDigitsM_lt (n : Nat) : ∀ d ∈ natDigitsM n, d < 10 := by
  rw [natDigitsM_eq_digits]
  intro d hd
  by_cases h : n = 0
  · subst h; simp at hd; omega
  · simp only [h, if_false, List.mem_reverse] at hd
    exact Nat.digits_lt_base (by norm_num) hd

theorem natDigitsM_ne_nil (n : Nat) : natDigitsM n ≠ [] := by
  rw [natDigitsM_eq_digits]
  by_cases h : n = 0
  · simp [h]
  · simp [h, Nat.digits_ne_nil_iff_ne_zero]

theorem dropWhile_eq_self_of_head (p : Char → Bool) (cs : List Char)
    (h : ∀ c, cs.head? = some c → p c = false) : cs.dropWhile p = cs := by
  cases cs with
  | nil => rfl
  | cons c r => simp [List.dropWhile_cons, h c rfl]

theorem replaceFirstComma_append (xs : List Char) (hx : ∀ c ∈ xs, c ≠ ',')
    (rest : List Char) :
    replaceFirstComma (xs ++ ',' :: rest) = xs ++ '.' :: rest := by
  induction xs with
  | nil => simp [replaceFirstComma]
  | cons c tl ih =>
    simp only [List.cons_append, replaceFirstComma, if_neg (hx c (by simp)),
      List.append_eq]
    rw [ih fun x hx2 => hx x (by simp [hx2])]

theorem twoDigits_lt (d : Nat) (hd : d < 100) : ∀ x ∈ twoDigits d, x < 10 := by
  intro x hx
  simp only [twoDigits, List.mem_cons, List.not_mem_nil, or_false] at hx
  rcases hx with h | h <;> omega

theorem digitsVal_twoDigits (d : Nat) :
    digitsVal (twoDigits d) = 10 * (d / 10) + d % 10 := by
  simp [twoDigits, digitsVal]

theorem dropWhile_cons_of_neg (c0 : Char) (rest : List Char)
    (h : isJsWhitespace c0 = false) :
    (c0 :: rest).dropWhile isJsWhitespace = c0 :: rest := by
  simp [List.dropWhile_cons, h]

theorem jsTrim_eq_self (c0 cn : Char) (mid : List Char)
    (h0 : isJsWhitespace c0 = false) (hn : isJsWhitespace cn = false) :
    jsTrimChars (c0 :: (mid ++ [cn])) = c0 :: (mid ++ [cn]) := by
  unfold jsTrimChars
  rw [dropWhile_cons_of_neg c0 _ h0]
  rw [show (c0 :: (mid ++ [cn])).reverse = cn :: ((c0 :: mid).reverse) from by simp]
  rw [dropWhile_cons_of_neg cn _ hn]
  simp

theorem amountPipeline_euro (neg : Bool) (i d : Nat) (hd : d < 100) :
    amountPipeline (euroChars neg i d) =
      (if neg then ['-'] else []) ++ natChars i ++
        '.' :: (twoDigits d).map decDigitChar := by
  obtain ⟨d0, ds', hds⟩ := List.exists_cons_of_ne_nil (natDigitsM_ne_nil i)
  have hd0 : d0 < 10 := natDigitsM_lt i d0 (by simp [hds])
  have hDmap : ∀ c ∈ natChars i,
      c ≠ '–' ∧ c ≠ ',' ∧ c ≠ '€' ∧ isJsWhitespace c = false := by
    intro c hc
    obtain ⟨x, hx, rfl⟩ := List.mem_map.mp hc
    have := decDigitChar_facts x (natDigitsM_lt i x hx)
    exact ⟨this.2.1, this.2.2.1, this.2.2.2.1, this.2.2.2.2.1⟩
  have hTmap : ∀ c ∈ (twoDigits d).map decDigitChar,
      c ≠ '–' ∧ c ≠ ',' ∧ c ≠ '€' ∧ isJsWhitespace c = false := by
    intro c hc
    obtain ⟨x, hx, rfl⟩ := List.mem_map.mp hc
    have := decDigitChar_facts x (twoDigits_lt d hd x hx)
    exact ⟨this.2.1, this.2.2.1, this.2.2.2.1, this.2.2.2.2.1⟩
  -- the trim step is the identity: the string starts with a dash or a
  -- digit and ends with the euro sign
  have htrim : jsTrimChars (euroChars neg i d) = euroChars neg i d := by
    cases neg with
    | true =>
      rw [show euroChars true i d = '–' :: ((natChars i ++ ',' ::
          ((twoDigits d).map decDigitChar ++ [' '])) ++ ['€']) from by
        simp [euroChars]]
      exact jsTrim_eq_self _ _ _ (by decide) (by decide)
    | false =>
      rw [show euroChars false i d = decDigitChar d0 :: ((ds'.map decDigitChar ++
          ',' :: ((twoDigits d).map decDigitChar ++ [' '])) ++ ['€']) from by
        simp [euroChars, natChars, hds]]
      exact jsTrim_eq_self _ _ _
        ((decDigitChar_facts d0 hd0).2.2.2.2.1) (by decide)
  unfold amountPipeline
  rw [htrim]
  -- the dash-replacement step only rewrites the optional leading dash
  have hmapD : (natChars i).map (fun c => if c = '–' then '-' else c) =
      natChars i :=
    (List.map_congr_left fun c hc => by simp [(hDmap c hc).1]).trans
      (List.map_id _)
  have hmapT : ((twoDigits d).map decDigitChar).map
      (fun c => if c = '–' then '-' else c) = (twoDigits d).map decDigitChar :=
    (List.map_congr_left fun c hc => by simp [(hTmap c hc).1]).trans
      (List.map_id _)
  have hmap : (euroChars neg i d).map (fun c => if c = '–' then '-' else c) =
      (if neg then ['-'] else []) ++ natChars i ++ [','] ++
        (twoDigits d).map decDigitChar ++ [' '] ++ ['€'] := by
    cases neg <;> simp [euroChars, List.map_append, hmapD, hmapT]
  rw [hmap]
  -- the stripping step removes exactly the space and the euro sign
  have hfD : (natChars i).filter (fun c => !(c == '€') && !isJsWhitespace c) =
      natChars i :=
    List.filter_eq_self.mpr fun c hc => by
      rw [Bool.and_eq_true, Bool.not_eq_true', Bool.not_eq_true']
      exact ⟨beq_eq_false_iff_ne.mpr (hDmap c hc).2.2.1, (hDmap c hc).2.2.2⟩
  have hfT : ((twoDigits d).map decDigitChar).filter
      (fun c => !(c == '€') && !isJsWhitespace c) =
      (twoDigits d).map decDigitChar :=
    List.filter_eq_self.mpr fun c hc => by
      rw [Bool.and_eq_true, Bool.not_eq_true', Bool.not_eq_true']
      exact ⟨beq_eq_false_iff_ne.mpr (hTmap c hc).2.2.1, (hTmap c hc).2.2.2⟩
  have e1 : (!((',' : Char) == '€') && !isJsWhitespace ',') = true := by decide
  have e2 : (!((' ' : Char) == '€') && !isJsWhitespace ' ') = false := by decide
  have e3 : (!(('€' : Char) == '€') && !isJsWhitespace '€') = false := by decide
  have e4 : (!(('-' : Char) == '€') && !isJsWhitespace '-') = true := by decide
  have hfilter : ((if neg then ['-'] else []) ++ natChars i ++ [','] ++
      (twoDigits d).map decDigitChar ++ [' '] ++ ['€']).filter
        (fun c => !(c == '€') && !isJsWhitespace c) =
      ((if neg then ['-'] else []) ++ natChars i) ++ ',' ::
        (twoDigits d).map decDigitChar := by
    have w1 : isJsWhitespace ',' = false := by decide
    have w2 : isJsWhitespace ' ' = true := by decide
    have w3 : isJsWhitespace '-' = false := by decide
    cases neg <;>
      simp [List.filter_append, hfD, hfT, List.filter_cons, List.filter_nil,
        e1, e2, e3, e4, w1, w2, w3]
  rw [hfilter]
  rw [replaceFirstComma_append _ (by
    intro c hc
    rcases List.mem_append.mp hc with h | h
    · cases neg with
      | true => simp at h; subst h; decide
      | false => simp at h
    · exact (hDmap c h).2.1)]

/-- Evaluation of the `parseFloat` model on a numeral of the shape
`digits . digits`, with an optional minus sign. -/
theorem parseFloatCore_digits (sign : Bool) (ds fs : List Nat) (hne : ds ≠ [])
    (hlt : ∀ x ∈ ds, x < 10) (hflt : ∀ x ∈ fs, x < 10) :
    parseFloatCore ((if sign then ['-'] else []) ++
        ds.map decDigitChar ++ '.' :: fs.map decDigitChar) =
      some ((if sign then (-1 : Rat) else 1) *
        ((digitsVal ds : Rat) + fracVal fs)) := by
  obtain ⟨d0, ds', rfl⟩ := List.exists_cons_of_ne_nil hne
  have h0 := decDigitChar_facts d0 (hlt d0 (by simp))
  have htake : takeDigits ((d0 :: ds').map decDigitChar ++
      '.' :: fs.map decDigitChar) = (d0 :: ds', '.' :: fs.map decDigitChar) :=
    takeDigits_map_append _ hlt _
      (by intro c hc; simp at hc; subst hc; decide)
  have htakeF : takeDigits (fs.map decDigitChar) = (fs, []) := by
    simpa using takeDigits_map_append fs hflt []
      (by intro c hc; simp at hc)
  have hsign : splitSign ((if sign then ['-'] else []) ++
      (d0 :: ds').map decDigitChar ++ '.' :: fs.map decDigitChar) =
      (sign, (d0 :: ds').map decDigitChar ++ '.' :: fs.map decDigitChar) := by
    cases sign with
    | true => simp [splitSign]
    | false =>
      show splitSign (decDigitChar d0 ::
        (ds'.map decDigitChar ++ '.' :: fs.map decDigitChar)) = _
      simp only [splitSign]
      rw [if_neg h0.2.2.2.2.2.1, if_neg h0.2.2.2.2.2.2]
      rfl
  simp only [parseFloatCore, hsign, htake, htakeF, List.isEmpty_cons,
    parseExponent, mul_one]
  cases sign <;> simp

/-- Evaluation of the full amount parser on well-formed euro strings. -/
theorem parseAmountStr_euroChars (neg : Bool) (i d : Nat) (hd : d < 100) :
    parseAmountStr (euroString neg i d) =
      (if neg then (-1 : Rat) else 1) * ((i * 100 + d : Rat) / 100) := by
  have hne : euroString neg i d ≠ "" := by
    intro h
    have h2 : euroChars neg i d = [] := by
      have := congrArg String.data h
      simpa [euroString] using this
    have h3 : ('€' : Char) ∈ euroChars neg i d := by simp [euroChars]
    rw [h2] at h3
    simp at h3
  have hlist : (euroString neg i d).toList = euroChars neg i d := rfl
  rw [parseAmountStr, if_neg hne, hlist, amountPipeline_euro neg i d hd]
  obtain ⟨d0, ds', hds⟩ := List.exists_cons_of_ne_nil (natDigitsM_ne_nil i)
  have hval : ((digitsVal (natDigitsM i) : Rat) + fracVal (twoDigits d)) =
      (i * 100 + d : Rat) / 100 := by
    rw [digitsVal_natDigitsM, fracVal, digitsVal_twoDigits]
    have hmod : 10 * (d / 10) + d % 10 = d := by omega
    rw [hmod]
    simp only [twoDigits, List.length_cons, List.length_nil]
    push_cast
    ring
  have hdrop : ((if neg then ['-'] else []) ++ natChars i ++
      '.' :: (twoDigits d).map decDigitChar).dropWhile isJsWhitespace =
      (if neg then ['-'] else []) ++ natChars i ++
        '.' :: (twoDigits d).map decDigitChar := by
    cases neg with
    | true =>
      show ('-' :: (natChars i ++ '.' :: (twoDigits d).map decDigitChar)
        ).dropWhile isJsWhitespace = _
      rw [dropWhile_cons_of_neg _ _ (by decide)]
      rfl
    | false =>
      rw [show (if false then ['-'] else []) ++ natChars i ++
          '.' :: (twoDigits d).map decDigitChar =
          decDigitChar d0 :: (ds'.map decDigitChar ++
            '.' :: (twoDigits d).map decDigitChar) from by
        simp [natChars, hds]]
      rw [dropWhile_cons_of_neg _ _
        ((decDigitChar_facts d0 (natDigitsM_lt i d0 (by simp [hds]))).2.2.2.2.1)]
  rw [parseFloatJS, hdrop]
  rw [show natChars i = (natDigitsM i).map decDigitChar from rfl]
  rw [parseFloatCore_digits neg (natDigitsM i) (twoDigits d)
    (natDigitsM_ne_nil i) (natDigitsM_lt i) (twoDigits_lt d hd), hval]

/-- C3: a monetary string of the form `<int>,<2-digit> €`, optionally with
a leading long dash as minus sign, parses to the corresponding signed
decimal; the parse pipeline replaces long dashes, strips euro signs and
whitespace and replaces the comma with a period before numeric parsing,
and a string whose normalised form still fails numeric parsing yields 0. -/
theorem parseAmount_euro_format (i d : Nat) (hd : d < 100) :
    parseAmountStr (euroString false i d) = (i * 100 + d : Rat) / 100 ∧
    parseAmountStr (euroString true i d) = -((i * 100 + d : Rat) / 100) ∧
    ∀ s : String, parseFloatJS (amountPipeline s.toList) = none →
      parseAmountStr s = 0 := by
  refine ⟨?_, ?_, ?_⟩
  · simpa using parseAmountStr_euroChars false i d hd
  · have h := parseAmountStr_euroChars true i d hd
    simpa using h
  · intro s hs
    by_cases he : s = ""
    · simp [parseAmountStr, he]
    · have hs' : parseFloatJS (amountPipeline s.data) = none := hs
      simp [parseAmountStr, he, hs']

theorem parseAmount_euro_format_witness :
    parseAmountStr (euroString false 154 0) = (154 * 100 + 0 : Rat) / 100 ∧
    parseAmountStr (euroString true 154 0) = -((154 * 100 + 0 : Rat) / 100) ∧
    ∀ s : String, parseFloatJS (amountPipeline s.toList) = none →
      parseAmountStr s = 0 :=
  parseAmount_euro_format 154 0 (by norm_num)


/-! ## Lowercase normalisation (String.prototype.toLowerCase) -/

/-- `toLowerCase` on the Basic Latin and Latin-1 ranges, which cover the
field variants and accented French product names of this code base. -/
def jsLowerChar (c : Char) : Char :=
  if 'A' ≤ c ∧ c ≤ 'Z' then Char.ofNat (c.toNat + 32)
  else if ('À' ≤ c ∧ c ≤ 'Þ') ∧ c ≠ '×' then Char.ofNat (c.toNat + 32)
  else c

/-- `String.prototype.toLowerCase`. -/
def jsToLower (s : String) : String := String.mk (s.toList.map jsLowerChar)

/-! ## Stock reconciliation from imports (storage.ts, updateStockFromSales) -/

/-- One step of building the `stockUpdates` object: add a sale under its
lowercase product key, summing the quantity and collecting the sale.
String keys of a JavaScript object enumerate in insertion order, which
the association list reproduces (integer-like keys, which JavaScript
would enumerate first, do not occur for product names in the verified
properties). -/
def addToGroups (gs : List (String × Rat × List Sale)) (key : String)
    (s : Sale) : List (String × Rat × List Sale) :=
  match gs with
  | [] => [(key, s.quantity, [s])]
  | (k, q, ss) :: rest =>
    if k = key then (k, q + s.quantity, ss ++ [s]) :: rest
    else (k, q, ss) :: addToGroups rest key s

/-- The `stockUpdates` grouping of `updateStockFromSales`. -/
def groupSales (sales : List Sale) : List (String × Rat × List Sale) :=
  sales.foldl (fun gs s => addToGroups gs (jsToLower s.productName) s) []

/-- In-place decrement of the first stock item whose lowercase name
equals the group key (the `stock.find` followed by mutation of the found
element inside the saved array). -/
def decrementFirstMatch (stock : List StockItem) (key : String) (q : Rat) :
    List StockItem :=
  match stock with
  | [] => []
  | item :: rest =>
    if jsToLower item.name = key then
      { item with currentStock := item.currentStock - q } :: rest
    else item :: decrementFirstMatch rest key q

/-- The consolidated movement pushed for one matched product group. -/
def consolidatedMovement (now : String) (item : StockItem) (q : Rat)
    (productSales : List Sale) (firstSale : Sale) : StockMovement :=
  { id := "", date := now, productId := item.id, type := MovementType.mOut,
    quantity := q,
    reason := "Import: " ++ toString productSales.length ++ " vente(s)",
    register := firstSale.register, seller := firstSale.seller }

/-- The per-group loop of `updateStockFromSales`: for each group in
insertion order, decrement the first matching stock item and push one
consolidated movement; groups without a matching stock item are skipped.
(A group with an empty sale list cannot arise from the grouping.) -/
def applyGroups (now : String) (stock : List StockItem) :
    List (String × Rat × List Sale) → List StockItem × List StockMovement
  | [] => (stock, [])
  | (key, q, ss) :: rest =>
    match stock.find? (fun item => jsToLower item.name == key), ss with
    | some item, firstSale :: _ =>
      let stock2 := decrementFirstMatch stock key q
      let p := applyGroups now stock2 rest
      (p.1, consolidatedMovement now item q ss firstSale :: p.2)
    | _, _ => applyGroups now stock rest

/-- `updateStockFromSales` from storage.ts (localStorage fallback path),
acting on the stored stock list and movement log. -/
def updateStockFromSales (now : String) (sales : List Sale)
    (stock : List StockItem) (movements : List StockMovement) :
    List StockItem × List StockMovement :=
  if sales.isEmpty then (stock, movements)
  else
    let p := applyGroups now stock (groupSales sales)
    (p.1, movements ++ p.2)

theorem foldl_addToGroups (p : String) (sales : List Sale)
    (hp : ∀ s ∈ sales, jsToLower s.productName = p) (q0 : Rat)
    (acc : List Sale) :
    sales.foldl (fun gs s => addToGroups gs (jsToLower s.productName) s)
        [(p, q0, acc)] =
      [(p, q0 + (sales.map Sale.quantity).sum, acc ++ sales)] := by
  induction sales generalizing q0 acc with
  | nil => simp
  | cons s tl ih =>
    have hs : jsToLower s.productName = p := hp s (by simp)
    simp only [List.foldl_cons, hs, addToGroups, if_pos rfl, if_true]
    rw [ih (fun x hx => hp x (by simp [hx]))]
    simp only [List.map_cons, List.sum_cons, List.append_assoc,
      List.singleton_append, List.cons_append, List.nil_append]
    rw [add_assoc]

theorem groupSales_single (p : String) (sales : List Sale) (hne : sales ≠ [])
    (hp : ∀ s ∈ sales, jsToLower s.productName = p) :
    groupSales sales = [(p, (sales.map Sale.quantity).sum, sales)] := by
  obtain ⟨s, tl, rfl⟩ := List.exists_cons_of_ne_nil hne
  have hs : jsToLower s.productName = p := hp s (by simp)
  simp only [groupSales, List.foldl_cons, addToGroups, hs]
  rw [foldl_addToGroups p tl (fun x hx => hp x (by simp [hx]))]
  simp

theorem decrementFirstMatch_split (stock : List StockItem) (p : String)
    (q : Rat) (item : StockItem)
    (hfind : stock.find? (fun it => jsToLower it.name == p) = some item) :
    ∃ pre post, stock = pre ++ item :: post ∧
      (∀ it ∈ pre, jsToLower it.name ≠ p) ∧
      jsToLower item.name = p ∧
      decrementFirstMatch stock p q =
        pre ++ { item with currentStock := item.currentStock - q } :: post := by
  induction stock with
  | nil => simp at hfind
  | cons a rest ih =>
    by_cases h : jsToLower a.name = p
    · have ha : item = a := by
        rw [List.find?_cons_of_pos _ (by simpa using h)] at hfind
        exact (Option.some_inj.mp hfind).symm
      subst ha
      exact ⟨[], rest, by simp, by simp, h,
        by simp [decrementFirstMatch, if_pos h]⟩
    · rw [List.find?_cons_of_neg _ (by simpa using h)] at hfind
      obtain ⟨pre, post, h1, h2, h3, h4⟩ := ih hfind
      refine ⟨a :: pre, post, by simp [h1], ?_, h3, ?_⟩
      · intro it hit
        rcases List.mem_cons.mp hit with rfl | hit2
        · exact h
        · exact h2 it hit2
      · simp [decrementFirstMatch, if_neg h, h4]

/-- C1: importing a non-empty batch of sales that share one lowercase
product name against a stock list whose first matching item has stock S
decrements exactly that item's stock to S − Q, where Q is the summed
quantity of the batch, and appends exactly one stock movement of type
"out" with quantity Q whose reason cites the number of underlying sales;
all other stock items are untouched. -/
theorem updateStockFromSales_single_product
    (now p : String) (firstSale : Sale) (restSales : List Sale)
    (stock : List StockItem) (movements : List StockMovement)
    (hp : ∀ s ∈ firstSale :: restSales, jsToLower s.productName = p)
    (item : StockItem)
    (hfind : stock.find? (fun it => jsToLower it.name == p) = some item) :
    updateStockFromSales now (firstSale :: restSales) stock movements =
      (decrementFirstMatch stock p
          (((firstSale :: restSales).map Sale.quantity).sum),
        movements ++ [consolidatedMovement now item
          (((firstSale :: restSales).map Sale.quantity).sum)
          (firstSale :: restSales) firstSale]) ∧
    ∃ pre post, stock = pre ++ item :: post ∧
      (∀ it ∈ pre, jsToLower it.name ≠ p) ∧
      jsToLower item.name = p ∧
      decrementFirstMatch stock p
          (((firstSale :: restSales).map Sale.quantity).sum) =
        pre ++ { item with currentStock := item.currentStock -
          (((firstSale :: restSales).map Sale.quantity).sum) } :: post := by
  constructor
  · rw [updateStockFromSales, groupSales_single p _ (by simp) hp]
    simp [applyGroups, hfind]
  · exact decrementFirstMatch_split stock p _ item hfind

/-- Concrete data for the reconciliation witness: the end-to-end scenario
of the specification (stock 100, sales of 5 and 3). -/
def c1item : StockItem :=
  { id := "2", name := "Coca-Cola", category := "Boissons",
    subcategory := "Sodas", currentStock := 100, alertThreshold := 5,
    initialStock := 150, unitPrice := 2 }

/-- First imported sale of the reconciliation witness (5 units). -/
def c1sale1 : Sale :=
  { id := "a", date := "2024-01-02", clientName := "Client Import",
    productName := "Coca-Cola", quantity := 5, unitPrice := 2,
    totalAmount := 10, paymentMethod := "Non spécifié", notes := some "",
    seller := some "Non spécifié", register := some "Non spécifié",
    category := some "Boissons" }

/-- Second imported sale of the reconciliation witness (3 units). -/
def c1sale2 : Sale :=
  { c1sale1 with id := "b", quantity := 3, totalAmount := 6 }

theorem updateStockFromSales_single_product_witness :
    updateStockFromSales "now" (c1sale1 :: [c1sale2]) [c1item] [] =
      (decrementFirstMatch [c1item] "coca-cola"
          (((c1sale1 :: [c1sale2]).map Sale.quantity).sum),
        [] ++ [consolidatedMovement "now" c1item
          (((c1sale1 :: [c1sale2]).map Sale.quantity).sum)
          (c1sale1 :: [c1sale2]) c1sale1]) ∧
    ∃ pre post, [c1item] = pre ++ c1item :: post ∧
      (∀ it ∈ pre, jsToLower it.name ≠ "coca-cola") ∧
      jsToLower c1item.name = "coca-cola" ∧
      decrementFirstMatch [c1item] "coca-cola"
          (((c1sale1 :: [c1sale2]).map Sale.quantity).sum) =
        pre ++ { c1item with currentStock := c1item.currentStock -
          (((c1sale1 :: [c1sale2]).map Sale.quantity).sum) } :: post :=
  updateStockFromSales_single_product "now" "coca-cola" c1sale1 [c1sale2]
    [c1item] [] (by decide) c1item (by decide)

/-! ## Header normalisation (Import component, normalizeHeaders) -/

/-- The accent-folding replacements applied to headers and variants. -/
def foldAccentChar (c : Char) : Char :=
  if c = 'à' ∨ c = 'á' ∨ c = 'â' ∨ c = 'ã' ∨ c = 'ä' ∨ c = 'å' then 'a'
  else if c = 'è' ∨ c = 'é' ∨ c = 'ê' ∨ c = 'ë' then 'e'
  else if c = 'ì' ∨ c = 'í' ∨ c = 'î' ∨ c = 'ï' then 'i'
  else if c = 'ò' ∨ c = 'ó' ∨ c = 'ô' ∨ c = 'õ' ∨ c = 'ö' then 'o'
  else if c = 'ù' ∨ c = 'ú' ∨ c = 'û' ∨ c = 'ü' then 'u'
  else if c = 'ç' then 'c'
  else if c = 'ñ' then 'n'
  else c

/-- Characters removed by the noise-stripping replacement: underscores,
whitespace and hyphens. -/
def isNoiseChar (c : Char) : Bool := c == '_' || c == '-' || isJsWhitespace c

/-- Lowercase, fold accents, strip noise. -/
def normKeyCore (cs : List Char) : List Char :=
  ((cs.map jsLowerChar).map foldAccentChar).filter fun c => !isNoiseChar c

/-- Normalisation applied to an incoming header (with the leading trim). -/
def normHeader (s : String) : List Char := normKeyCore (jsTrimChars s.toList)

/-- Normalisation applied to a dictionary variant (no trim in the source). -/
def normVariant (s : String) : List Char := normKeyCore s.toList

/-- Does `hay` start with `needle`? -/
def startsWithChars : List Char → List Char → Bool
  | _, [] => true
  | [], _ :: _ => false
  | a :: as, b :: bs => a == b && startsWithChars as bs

/-- JavaScript `String.prototype.includes`: `needle` occurs contiguously
in `hay`. -/
def containsChars (hay needle : List Char) : Bool :=
  match hay with
  | [] => needle.isEmpty
  | _ :: rest => startsWithChars hay needle || containsChars rest needle

/-- The `fieldMappings` dictionary, in declaration order. -/
def fieldMappings : List (String × List String) :=
  [("register", ["caisse", "register", "cash_register", "till", "pos"]),
   ("product", ["produit", "product", "item", "article", "nom", "name"]),
   ("type", ["types", "type", "category", "categorie", "catégorie"]),
   ("quantity", ["quantité", "quantite", "quantity", "qty", "qte", "nb"]),
   ("amount", ["montant", "amount", "total", "prix", "price", "value", "valeur"]),
   ("seller", ["vendeur", "seller", "salesperson", "employee", "employe",
      "employé", "staff", "user", "utilisateur"]),
   ("date", ["date", "datetime", "timestamp", "time"])]

/-- The match test of the inner loop: equality, or substring containment
in either direction, against any variant of the field. -/
def variantFound (lh : List Char) (variations : List String) : Bool :=
  variations.any fun v =>
    lh == normVariant v || containsChars lh (normVariant v) ||
      containsChars (normVariant v) lh

/-- First-binding lookup in the accumulated header mapping. -/
def lookupField : List (String × String) → String → Option String
  | [], _ => none
  | (k, v) :: rest, f => if k = f then some v else lookupField rest f

/-- The JavaScript falsiness test `!normalized[internalField]`: the field
is unbound, or bound to the empty string. -/
def fieldFalsy (m : List (String × String)) (f : String) : Bool :=
  match lookupField m f with
  | none => true
  | some v => v == ""

/-- Assignment `normalized[internalField] = header` on the association
list (overwrite in place, else append). -/
def setField : List (String × String) → String → String → List (String × String)
  | [], f, v => [(f, v)]
  | (k, w) :: rest, f, v =>
    if k = f then (k, v) :: rest else (k, w) :: setField rest f v

/-- The inner for-loop over `fieldMappings`: assign the header to the
first field that matches and is still falsy, then break; fields that
match but are already bound are passed over. -/
def fieldLoop (lh : List Char) (header : String) :
    List (String × List String) → List (String × String) →
      List (String × String)
  | [], m => m
  | (f, vars) :: rest, m =>
    if variantFound lh vars && fieldFalsy m f then setField m f header
    else fieldLoop lh header rest m

/-- Headers with spreadsheet-tool placeholder prefixes are skipped. -/
def skipHeader (h : String) : Bool :=
  startsWithChars h.toList "Unnamed:".toList ||
    startsWithChars h.toList "__EMPTY".toList

/-- Processing of one header. -/
def headerStep (m : List (String × String)) (h : String) :
    List (String × String) :=
  if skipHeader h then m else fieldLoop (normHeader h) h fieldMappings m

/-- `normalizeHeaders` from the Import component. -/
def normalizeHeaders (headers : List String) : List (String × String) :=
  headers.foldl headerStep []

/-- The required sales fields of `validateSalesData`. -/
def requiredFields : List String := ["product", "quantity", "amount", "date"]

theorem lookupField_setField_self (m : List (String × String)) (f v : String) :
    lookupField (setField m f v) f = some v := by
  induction m with
  | nil => simp [setField, lookupField]
  | cons kv rest ih =>
    obtain ⟨k, w⟩ := kv
    by_cases h : k = f
    · show lookupField (if k = f then (k, v) :: rest else (k, w) :: setField rest f v) f = _
      rw [if_pos h]
      show (if k = f then some v else lookupField rest f) = _
      rw [if_pos h]
    · show lookupField (if k = f then (k, v) :: rest else (k, w) :: setField rest f v) f = _
      rw [if_neg h]
      show (if k = f then some w else lookupField (setField rest f v) f) = _
      rw [if_neg h]
      exact ih

theorem lookupField_setField_ne (m : List (String × String)) (g f v : String)
    (hgf : g ≠ f) :
    lookupField (setField m g v) f = lookupField m f := by
  induction m with
  | nil => simp [setField, lookupField, hgf]
  | cons kv rest ih =>
    obtain ⟨k, w⟩ := kv
    by_cases h : k = g
    · show lookupField (if k = g then (k, v) :: rest else (k, w) :: setField rest g v) f = _
      rw [if_pos h]
      show (if k = f then some v else lookupField rest f) = _
      rw [if_neg (by rw [h]; exact hgf)]
      show _ = (if k = f then some w else lookupField rest f)
      rw [if_neg (by rw [h]; exact hgf)]
    · show lookupField (if k = g then (k, v) :: rest else (k, w) :: setField rest g v) f = _
      rw [if_neg h]
      show (if k = f then some w else lookupField (setField rest g v) f) =
        (if k = f then some w else lookupField rest f)
      rw [ih]

theorem fieldFalsy_eq_false (m : List (String × String)) (f : String)
    (h : fieldFalsy m f = false) :
    ∃ v, lookupField m f = some v ∧ v ≠ "" := by
  unfold fieldFalsy at h
  cases hl : lookupField m f with
  | none => rw [hl] at h; simp at h
  | some v =>
    rw [hl] at h
    exact ⟨v, rfl, by simpa using h⟩

theorem fieldFalsy_of_some (m : List (String × String)) (f v : String)
    (hv : lookupField m f = some v) (hne : v ≠ "") :
    fieldFalsy m f = false := by
  unfold fieldFalsy
  rw [hv]
  simpa using hne

theorem fieldLoop_preserves (lh : List Char) (header : String)
    (fields : List (String × List String)) (m : List (String × String))
    (f : String) (hff : fieldFalsy m f = false) :
    lookupField (fieldLoop lh header fields m) f = lookupField m f := by
  induction fields with
  | nil => rfl
  | cons gv rest ih =>
    obtain ⟨g, gvars⟩ := gv
    show lookupField (if variantFound lh gvars && fieldFalsy m g
      then setField m g header else fieldLoop lh header rest m) f = _
    by_cases hc : (variantFound lh gvars && fieldFalsy m g) = true
    · rw [if_pos hc]
      have hg : fieldFalsy m g = true := ((Bool.and_eq_true _ _).mp hc).2
      have hgf : g ≠ f := by
        intro he
        rw [he, hff] at hg
        exact Bool.false_ne_true hg
      exact lookupField_setField_ne m g f header hgf
    · rw [if_neg hc]
      exact ih

theorem fieldLoop_values (lh : List Char) (header : String)
    (fields : List (String × List String)) (m : List (String × String))
    (k w : String)
    (h : lookupField (fieldLoop lh header fields m) k = some w) :
    w = header ∨ lookupField m k = some w := by
  induction fields with
  | nil => exact Or.inr h
  | cons gv rest ih =>
    obtain ⟨g, gvars⟩ := gv
    rw [show fieldLoop lh header ((g, gvars) :: rest) m =
      (if variantFound lh gvars && fieldFalsy m g then setField m g header
        else fieldLoop lh header rest m) from rfl] at h
    by_cases hc : (variantFound lh gvars && fieldFalsy m g) = true
    · rw [if_pos hc] at h
      by_cases hkg : k = g
      · subst hkg
        rw [lookupField_setField_self] at h
        exact Or.inl (Option.some_inj.mp h).symm
      · rw [lookupField_setField_ne m g k header (fun he => hkg he.symm)] at h
        exact Or.inr h
    · rw [if_neg hc] at h
      exact ih h

theorem fieldLoop_assigns (lh : List Char) (header : String)
    (pre post : List (String × List String)) (f : String)
    (vars : List String) (m : List (String × String))
    (hpre : ∀ gv ∈ pre, gv.1 ≠ f ∧ variantFound lh gv.2 = false)
    (hfound : variantFound lh vars = true) :
    ∃ h2, lookupField (fieldLoop lh header (pre ++ (f, vars) :: post) m) f =
        some h2 ∧
      (h2 = header ∨ (lookupField m f = some h2 ∧ h2 ≠ "")) := by
  induction pre generalizing m with
  | nil =>
    show ∃ h2, lookupField (if variantFound lh vars && fieldFalsy m f
      then setField m f header else fieldLoop lh header post m) f = some h2 ∧ _
    by_cases hff : fieldFalsy m f = true
    · rw [if_pos (by rw [hfound, hff]; rfl)]
      exact ⟨header, lookupField_setField_self m f header, Or.inl rfl⟩
    · have hff2 : fieldFalsy m f = false := by
        revert hff; cases fieldFalsy m f <;> simp
      rw [if_neg (by rw [hff2]; simp)]
      obtain ⟨v2, hv2, hne2⟩ := fieldFalsy_eq_false m f hff2
      rw [fieldLoop_preserves _ _ _ _ f hff2]
      exact ⟨v2, hv2, Or.inr ⟨hv2, hne2⟩⟩
  | cons gv pre' ih =>
    obtain ⟨g, gvars⟩ := gv
    have hg := hpre (g, gvars) (by simp)
    show ∃ h2, lookupField (if variantFound lh gvars && fieldFalsy m g
      then setField m g header
      else fieldLoop lh header (pre' ++ (f, vars) :: post) m) f = some h2 ∧ _
    rw [if_neg (by rw [hg.2]; simp)]
    exact ih m fun x hx => hpre x (List.mem_cons_of_mem _ hx)

theorem foldHeaders_values (hs : List String) (S : List String)
    (m : List (String × String))
    (hm : ∀ k w, lookupField m k = some w → w ∈ S)
    (hhs : ∀ x ∈ hs, x ∈ S) :
    ∀ k w, lookupField (hs.foldl headerStep m) k = some w → w ∈ S := by
  induction hs generalizing m with
  | nil => exact hm
  | cons hd tl ih =>
    intro k w hw
    rw [List.foldl_cons] at hw
    refine ih (headerStep m hd) ?_ (fun x hx => hhs x (List.mem_cons_of_mem _ hx))
      k w hw
    intro k2 w2 h2
    unfold headerStep at h2
    by_cases hsk : skipHeader hd = true
    · rw [if_pos hsk] at h2; exact hm k2 w2 h2
    · rw [if_neg hsk] at h2
      rcases fieldLoop_values _ _ _ _ _ _ h2 with heq | hl
      · rw [heq]; exact hhs hd (List.mem_cons_self _ _)
      · exact hm k2 w2 hl

theorem foldHeaders_cover (pre post : List (String × List String))
    (f : String) (vars : List String)
    (hsplit : fieldMappings = pre ++ (f, vars) :: post)
    (hpref : ∀ gv ∈ pre, gv.1 ≠ f)
    (hs : List String) (m : List (String × String))
    (hstate : (∃ h2, lookupField m f = some h2 ∧ h2 ≠ "") ∨
      (∃ h ∈ hs, skipHeader h = false ∧
        (∀ gv ∈ pre, variantFound (normHeader h) gv.2 = false) ∧
        variantFound (normHeader h) vars = true ∧ normHeader h ≠ [])) :
    ∃ h2, lookupField (hs.foldl headerStep m) f = some h2 ∧ h2 ≠ "" := by
  induction hs generalizing m with
  | nil =>
    rcases hstate with h | ⟨h, hmem, _⟩
    · exact h
    · simp at hmem
  | cons h0 tl ih =>
    rw [List.foldl_cons]
    rcases hstate with ⟨h2, hl, hne⟩ | ⟨h, hmem, hsk, hpre2, hfound, hne⟩
    · refine ih (headerStep m h0) (Or.inl ⟨h2, ?_, hne⟩)
      unfold headerStep
      by_cases hsk0 : skipHeader h0 = true
      · rw [if_pos hsk0]; exact hl
      · rw [if_neg hsk0]
        rw [fieldLoop_preserves _ _ _ _ f (fieldFalsy_of_some _ _ _ hl hne)]
        exact hl
    · rcases List.mem_cons.mp hmem with rfl | hmem2
      · refine ih (headerStep m h) (Or.inl ?_)
        unfold headerStep
        rw [if_neg (by rw [hsk]; simp)]
        rw [hsplit]
        obtain ⟨h3, hl3, hcase⟩ := fieldLoop_assigns (normHeader h) h pre post
          f vars m (fun gv hgv => ⟨hpref gv hgv, hpre2 gv hgv⟩) hfound
        refine ⟨h3, hl3, ?_⟩
        rcases hcase with rfl | ⟨_, hne3⟩
        · intro heq
          apply hne
          rw [heq]
          rfl
        · exact hne3
      · exact ih (headerStep m h0)
          (Or.inr ⟨h, hmem2, hsk, hpre2, hfound, hne⟩)

/-- C4: if the header list contains, for a required canonical field, a
header (not skipped as a placeholder) whose normalised form equals the
normalised form of a known variant of that field, then the returned
mapping binds that canonical field to a non-empty original header string
from the list; and placeholder headers are skipped unconditionally. -/
theorem normalizeHeaders_required (headers : List String)
    (f v h : String) (vars : List String)
    (hf : f ∈ requiredFields) (hfv : (f, vars) ∈ fieldMappings) (hv : v ∈ vars)
    (hh : h ∈ headers) (hskip : skipHeader h = false)
    (hnorm : normHeader h = normVariant v) :
    (∃ h2, lookupField (normalizeHeaders headers) f = some h2 ∧ h2 ≠ "" ∧
      h2 ∈ headers) ∧
    ∀ (pre post : List String) (hsk : String), skipHeader hsk = true →
      normalizeHeaders (pre ++ hsk :: post) = normalizeHeaders (pre ++ post) := by
  constructor
  · have hcover : ∃ h2,
        lookupField (normalizeHeaders headers) f = some h2 ∧ h2 ≠ "" := by
      simp only [fieldMappings, List.mem_cons, List.not_mem_nil, or_false,
        Prod.mk.injEq] at hfv
      rcases hfv with ⟨rfl, rfl⟩ | ⟨rfl, rfl⟩ | ⟨rfl, rfl⟩ | ⟨rfl, rfl⟩ |
        ⟨rfl, rfl⟩ | ⟨rfl, rfl⟩ | ⟨rfl, rfl⟩
      · exact absurd hf (by decide)
      · refine foldHeaders_cover (List.take 1 fieldMappings)
          (List.drop 2 fieldMappings) _ _ (by rfl) (by decide) headers []
          (Or.inr ⟨h, hh, hskip, ?_, ?_, ?_⟩) <;>
          · rw [hnorm]; clear hnorm hh hskip; revert hv; revert v; decide
      · exact absurd hf (by decide)
      · refine foldHeaders_cover (List.take 3 fieldMappings)
          (List.drop 4 fieldMappings) _ _ (by rfl) (by decide) headers []
          (Or.inr ⟨h, hh, hskip, ?_, ?_, ?_⟩) <;>
          · rw [hnorm]; clear hnorm hh hskip; revert hv; revert v; decide
      · refine foldHeaders_cover (List.take 4 fieldMappings)
          (List.drop 5 fieldMappings) _ _ (by rfl) (by decide) headers []
          (Or.inr ⟨h, hh, hskip, ?_, ?_, ?_⟩) <;>
          · rw [hnorm]; clear hnorm hh hskip; revert hv; revert v; decide
      · exact absurd hf (by decide)
      · refine foldHeaders_cover (List.take 6 fieldMappings)
          (List.drop 7 fieldMappings) _ _ (by rfl) (by decide) headers []
          (Or.inr ⟨h, hh, hskip, ?_, ?_, ?_⟩) <;>
          · rw [hnorm]; clear hnorm hh hskip; revert hv; revert v; decide
    obtain ⟨h2, hl, hne⟩ := hcover
    exact ⟨h2, hl, hne,
      foldHeaders_values headers headers [] (by intro k w hw; simp [lookupField] at hw)
        (fun x hx => hx) f h2 hl⟩
  · intro pre post hsk hs
    unfold normalizeHeaders
    rw [List.foldl_append, List.foldl_append, List.foldl_cons]
    congr 1
    unfold headerStep
    rw [if_pos hs]

/-- Concrete header list for the header-normalisation witness. -/
def c4headers : List String :=
  ["Unnamed: 0", "Produit", "Quantité", "Montant", "Date"]

theorem normalizeHeaders_required_witness :
    (∃ h2, lookupField (normalizeHeaders c4headers) "product" = some h2 ∧
      h2 ≠ "" ∧ h2 ∈ c4headers) ∧
    ∀ (pre post : List String) (hsk : String), skipHeader hsk = true →
      normalizeHeaders (pre ++ hsk :: post) = normalizeHeaders (pre ++ post) :=
  normalizeHeaders_required c4headers "product" "produit" "Produit"
    ["produit", "product", "item", "article", "nom", "name"]
    (by decide) (by decide) (by decide) (by decide) (by decide) (by decide)

/-! ## Storage facade (storage.ts, supabaseStorage.ts, SQL trigger)

The facade is modelled as a state machine.  `shouldUseSupabase` is the
`authenticated` flag (remote operations are modelled as succeeding, so
the catch-and-fall-back wrappers reduce to an if on that flag).  Remote
reads are modelled as returning the stored rows in insertion order (the
SQL ordering clauses only affect display order, which no verified
property mentions).  Database check constraints and the unique name
constraint are not modelled; every concrete input used below satisfies
them.  Thrown JavaScript errors are modelled as `Except.error` with the
message that the source throws. -/

/-- Content of one localStorage slot: the key may be absent, present but
not parseable as JSON, or parsed into a list of records. -/
inductive StoredData (α : Type) where
  | absent
  | malformed
  | parsed (items : List α)
deriving DecidableEq

/-- The localStorage keys used by storage.ts. -/
structure LocalState where
  sales : StoredData Sale
  stock : StoredData StockItem
  movements : StoredData StockMovement
  readOnly : Bool
  migrated : Bool
deriving DecidableEq

/-- The three Supabase tables, restricted to the current user's rows. -/
structure RemoteState where
  sales : List Sale
  stock : List StockItem
  movements : List StockMovement
deriving DecidableEq

/-- Full storage state. -/
structure AppState where
  localSt : LocalState
  remote : RemoteState
  authenticated : Bool
deriving DecidableEq

/-- The error thrown by every read-only-mode guard. -/
def roError : String := "Application en mode lecture seule"

/-- Generic message produced by `handleSupabaseError` when a JSON parse
failure aborts the migration; its exact text is never inspected. -/
def migrationError : String := "An unexpected error occurred. Please try again."

/-- `JSON.parse` of a slot with the surrounding try/catch of the read
operations: an absent key or a parse failure yields the empty list. -/
def readSlot {α : Type} : StoredData α → List α
  | .absent => []
  | .malformed => []
  | .parsed items => items

/-- `getSales`. -/
def getSalesOp (st : AppState) : List Sale :=
  if st.authenticated then st.remote.sales else readSlot st.localSt.sales

/-- `getStock`. -/
def getStockOp (st : AppState) : List StockItem :=
  if st.authenticated then st.remote.stock else readSlot st.localSt.stock

/-- `getStockMovements`. -/
def getStockMovementsOp (st : AppState) : List StockMovement :=
  if st.authenticated then st.remote.movements else readSlot st.localSt.movements

/-- `saveSales`: read-only guard, then a localStorage write (the
authenticated branch of the source also only writes localStorage). -/
def saveSalesOp (st : AppState) (sales : List Sale) : Except String AppState :=
  if st.localSt.readOnly then .error roError
  else .ok { st with localSt := { st.localSt with sales := .parsed sales } }

/-- `saveStock`: same shape as `saveSales`. -/
def saveStockOp (st : AppState) (stock : List StockItem) :
    Except String AppState :=
  if st.localSt.readOnly then .error roError
  else .ok { st with localSt := { st.localSt with stock := .parsed stock } }

/-- The movement inserted by the `update_stock_on_sale` trigger for each
stock item matching the inserted sale's product name exactly. -/
def saleTriggerMovement (item : StockItem) (s : Sale) : StockMovement :=
  { id := "", date := s.date, productId := item.id, type := MovementType.mOut,
    quantity := s.quantity, reason := "Sale #" ++ s.id,
    register := s.register, seller := s.seller }

/-- Remote insertion of one sale together with the after-insert trigger:
decrement every exactly-matching stock item and log one movement per
matching item. -/
def applyInsertSaleTrigger (r : RemoteState) (s : Sale) : RemoteState :=
  { sales := r.sales ++ [s]
    stock := r.stock.map fun it =>
      if it.name = s.productName then
        { it with currentStock := it.currentStock - s.quantity }
      else it
    movements := r.movements ++
      (r.stock.filter fun it => it.name == s.productName).map
        fun it => saleTriggerMovement it s }

/-- `addStockMovement`. -/
def addStockMovementOp (st : AppState) (mv : StockMovement) :
    Except String AppState :=
  if st.localSt.readOnly then .error roError
  else if st.authenticated then
    .ok { st with remote :=
      { st.remote with movements := st.remote.movements ++ [mv] } }
  else
    .ok { st with localSt := { st.localSt with
      movements := .parsed (readSlot st.localSt.movements ++ [mv]) } }

/-- The movement written by `updateStockFromSale` for one sale. -/
def singleSaleMovement (item : StockItem) (sale : Sale) : StockMovement :=
  { id := "", date := sale.date, productId := item.id,
    type := MovementType.mOut, quantity := sale.quantity,
    reason := "Vente #" ++ sale.id,
    register := sale.register, seller := sale.seller }

/-- `updateStockFromSale` (invoked by the localStorage fallback of
`addSale`): decrement the first matching stock item and log one
movement, or do nothing when no stock item matches. -/
def updateStockFromSaleOp (st : AppState) (sale : Sale) :
    Except String AppState :=
  let stock := getStockOp st
  match stock.find? fun item =>
      jsToLower item.name == jsToLower sale.productName with
  | some item =>
    match saveStockOp st
        (decrementFirstMatch stock (jsToLower sale.productName) sale.quantity) with
    | .error e => .error e
    | .ok st2 => addStockMovementOp st2 (singleSaleMovement item sale)
  | none => .ok st

/-- `addSale`. -/
def addSaleOp (st : AppState) (sale : Sale) : Except String AppState :=
  if st.localSt.readOnly then .error roError
  else if st.authenticated then
    .ok { st with remote := applyInsertSaleTrigger st.remote sale }
  else
    match saveSalesOp st (getSalesOp st ++ [sale]) with
    | .error e => .error e
    | .ok st2 => updateStockFromSaleOp st2 sale

/-- `updateSale`. -/
def updateSaleOp (st : AppState) (updatedSale : Sale) :
    Except String AppState :=
  if st.localSt.readOnly then .error roError
  else if st.authenticated then
    .ok { st with remote := { st.remote with
      sales := st.remote.sales.map
        (fun s => if s.id = updatedSale.id then updatedSale else s) } }
  else
    saveSalesOp st ((getSalesOp st).map
      fun s => if s.id = updatedSale.id then updatedSale else s)

/-- `deleteSale`.  Neither the remote path (the only trigger fires on
insert) nor the fallback path touches stock or the movement log. -/
def deleteSaleOp (st : AppState) (i : String) : Except String AppState :=
  if st.localSt.readOnly then .error roError
  else if st.authenticated then
    .ok { st with remote := { st.remote with
      sales := st.remote.sales.filter fun s => s.id != i } }
  else
    saveSalesOp st ((getSalesOp st).filter fun s => s.id != i)

/-- `addStockItem`. -/
def addStockItemOp (st : AppState) (item : StockItem) :
    Except String AppState :=
  if st.localSt.readOnly then .error roError
  else if st.authenticated then
    .ok { st with remote :=
      { st.remote with stock := st.remote.stock ++ [item] } }
  else saveStockOp st (getStockOp st ++ [item])

/-- `updateStockItem`. -/
def updateStockItemOp (st : AppState) (item : StockItem) :
    Except String AppState :=
  if st.localSt.readOnly then .error roError
  else if st.authenticated then
    .ok { st with remote := { st.remote with
      stock := st.remote.stock.map
        (fun it => if it.id = item.id then item else it) } }
  else
    saveStockOp st ((getStockOp st).map
      fun it => if it.id = item.id then item else it)

/-- `deleteStockItem`; the remote path cascades the deletion to
movements referencing the item (foreign key with cascade). -/
def deleteStockItemOp (st : AppState) (i : String) :
    Except String AppState :=
  if st.localSt.readOnly then .error roError
  else if st.authenticated then
    .ok { st with remote := { st.remote with
      stock := st.remote.stock.filter fun it => it.id != i
      movements := st.remote.movements.filter fun mv => mv.productId != i } }
  else saveStockOp st ((getStockOp st).filter fun it => it.id != i)

/-- Sequential `addStockMovement` calls of the batch reconciler. -/
def addMovementsOp (st : AppState) :
    List StockMovement → Except String AppState
  | [] => .ok st
  | mv :: rest =>
    match addStockMovementOp st mv with
    | .error e => .error e
    | .ok st2 => addMovementsOp st2 rest

/-- `updateStockFromSales` acting on the facade state: grouping and
decrementing as in the pure model, then one save and one movement
insertion per group. -/
def updateStockFromSalesOp (now : String) (st : AppState)
    (sales : List Sale) : Except String AppState :=
  if sales.isEmpty then .ok st
  else
    let p := applyGroups now (getStockOp st) (groupSales sales)
    match saveStockOp st p.1 with
    | .error e => .error e
    | .ok st2 => addMovementsOp st2 p.2

/-- `importSalesToSupabase` from storage.ts.  Note: no read-only guard
of its own; the remote branch inserts the batch (firing the trigger per
row), the fallback branch reaches the guard only inside `saveSales`. -/
def importSalesToSupabaseOp (now : String) (st : AppState)
    (sales : List Sale) : Except String AppState :=
  if sales.isEmpty then .ok st
  else if st.authenticated then
    .ok { st with remote := sales.foldl applyInsertSaleTrigger st.remote }
  else
    match saveSalesOp st (getSalesOp st ++ sales) with
    | .error e => .error e
    | .ok st2 => updateStockFromSalesOp now st2 sales

/-- `migrateLocalStorageToSupabase`: copy each non-empty parsed local
slot to the remote store (sales fire the insert trigger); a slot that is
present but unparseable makes the whole migration throw. -/
def migrateLocalToRemote (st : AppState) : Except String AppState :=
  match st.localSt.sales with
  | .malformed => .error migrationError
  | s =>
    let r1 := match s with
      | .parsed l => l.foldl applyInsertSaleTrigger st.remote
      | _ => st.remote
    match st.localSt.stock with
    | .malformed => .error migrationError
    | s2 =>
      let r2 := match s2 with
        | .parsed l => { r1 with stock := r1.stock ++ l }
        | _ => r1
      match st.localSt.movements with
      | .malformed => .error migrationError
      | s3 =>
        let r3 := match s3 with
          | .parsed l => { r2 with movements := r2.movements ++ l }
          | _ => r2
        .ok { st with remote := r3 }

/-- `migrateDataToSupabase`: gated by the persisted flag, runs the copy
only when authenticated, and sets the flag after a successful copy. -/
def migrateDataOp (st : AppState) : Except String AppState :=
  if st.localSt.migrated then .ok st
  else if st.authenticated then
    match migrateLocalToRemote st with
    | .error e => .error e
    | .ok st2 =>
      .ok { st2 with localSt := { st2.localSt with migrated := true } }
  else .ok st

/-! ## Read-only mode, deletion frame, migration, fallback reads -/

/-- C7 (amended): with the read-only flag set, every mutating facade
operation except `importSalesToSupabase` raises the read-only error and,
by raising before any write, leaves all stored data unchanged;
`importSalesToSupabase` performs no read-only check of its own: an empty
batch returns without error, a non-empty batch in the unauthenticated
fallback raises only through `saveSales` (before any write), and an
authenticated batch is written to the remote store despite the flag. -/
theorem readOnly_blocks (st : AppState) (hro : st.localSt.readOnly = true)
    (now : String) (sale : Sale) (item : StockItem) (mv : StockMovement)
    (i : String) (sales ss : List Sale) (stock : List StockItem) :
    addSaleOp st sale = .error roError ∧
    updateSaleOp st sale = .error roError ∧
    deleteSaleOp st i = .error roError ∧
    addStockItemOp st item = .error roError ∧
    updateStockItemOp st item = .error roError ∧
    deleteStockItemOp st i = .error roError ∧
    addStockMovementOp st mv = .error roError ∧
    saveSalesOp st ss = .error roError ∧
    saveStockOp st stock = .error roError ∧
    importSalesToSupabaseOp now st [] = .ok st ∧
    (st.authenticated = false → sales ≠ [] →
      importSalesToSupabaseOp now st sales = .error roError) ∧
    (st.authenticated = true → sales ≠ [] →
      importSalesToSupabaseOp now st sales =
        .ok { st with remote := sales.foldl applyInsertSaleTrigger st.remote }) := by
  refine ⟨?_, ?_, ?_, ?_, ?_, ?_, ?_, ?_, ?_, ?_, ?_, ?_⟩
  · simp [addSaleOp, hro]
  · simp [updateSaleOp, hro]
  · simp [deleteSaleOp, hro]
  · simp [addStockItemOp, hro]
  · simp [updateStockItemOp, hro]
  · simp [deleteStockItemOp, hro]
  · simp [addStockMovementOp, hro]
  · simp [saveSalesOp, hro]
  · simp [saveStockOp, hro]
  · simp [importSalesToSupabaseOp]
  · intro hauth hne
    simp [importSalesToSupabaseOp, hauth, hne, saveSalesOp, hro]
  · intro hauth hne
    simp [importSalesToSupabaseOp, hauth, hne]

/-- Concrete sale used by the facade witnesses and counterexamples. -/
def sampleSale : Sale :=
  { id := "s1", date := "2024-01-01", clientName := "c", productName := "P",
    quantity := 1, unitPrice := 1, totalAmount := 1, paymentMethod := "m",
    notes := none, seller := none, register := none, category := none }

/-- Concrete stock item used by the facade witnesses. -/
def sampleItem : StockItem :=
  { id := "i1", name := "P", category := "C", subcategory := "",
    currentStock := 10, alertThreshold := 5, initialStock := 10,
    unitPrice := 1 }

/-- Concrete movement used by the facade witnesses. -/
def sampleMovement : StockMovement :=
  { id := "m1", date := "2024-01-01", productId := "i1",
    type := MovementType.mOut, quantity := 1, reason := "r",
    register := none, seller := none }

/-- Read-only, authenticated state used to refute the original read-only
claim. -/
def roAuthState : AppState :=
  { localSt :=
      { sales := .parsed [], stock := .parsed [], movements := .parsed [],
        readOnly := true, migrated := false },
    remote := { sales := [], stock := [], movements := [] },
    authenticated := true }

/-- C7 counterexample: in a read-only, authenticated state,
`importSalesToSupabase` with a non-empty batch raises no error and
changes the stored sales, refuting the claim that every mutating
operation of the facade raises and leaves the state unchanged. -/
theorem importSales_readOnly_counterexample :
    roAuthState.localSt.readOnly = true ∧
    importSalesToSupabaseOp "2024-01-02" roAuthState [sampleSale] =
      .ok { roAuthState with
        remote := { sales := [sampleSale], stock := [], movements := [] } } ∧
    ({ roAuthState with
        remote := { sales := [sampleSale], stock := [], movements := [] } }
      : AppState) ≠ roAuthState :=
  ⟨rfl, rfl, by decide⟩

theorem readOnly_blocks_witness :
    addSaleOp roAuthState sampleSale = .error roError ∧
    updateSaleOp roAuthState sampleSale = .error roError ∧
    deleteSaleOp roAuthState "s1" = .error roError ∧
    addStockItemOp roAuthState sampleItem = .error roError ∧
    updateStockItemOp roAuthState sampleItem = .error roError ∧
    deleteStockItemOp roAuthState "i1" = .error roError ∧
    addStockMovementOp roAuthState sampleMovement = .error roError ∧
    saveSalesOp roAuthState [sampleSale] = .error roError ∧
    saveStockOp roAuthState [sampleItem] = .error roError ∧
    importSalesToSupabaseOp "now" roAuthState [] = .ok roAuthState ∧
    (roAuthState.authenticated = false → [sampleSale] ≠ [] →
      importSalesToSupabaseOp "now" roAuthState [sampleSale] = .error roError) ∧
    (roAuthState.authenticated = true → [sampleSale] ≠ [] →
      importSalesToSupabaseOp "now" roAuthState [sampleSale] =
        .ok { roAuthState with
          remote := [sampleSale].foldl applyInsertSaleTrigger roAuthState.remote }) :=
  readOnly_blocks roAuthState rfl "now" sampleSale sampleItem sampleMovement
    "s1" [sampleSale] [sampleSale] [sampleItem]

/-- C8: deleting a sale removes at most the sales carrying that
identifier and leaves every stock item and the whole movement log — in
both stores — unchanged: no compensating "in" movement and no stock
increment is performed. -/
theorem deleteSale_frame (st : AppState) (i : String)
    (hro : st.localSt.readOnly = false) :
    (st.authenticated = true →
      deleteSaleOp st i = .ok { st with remote := { st.remote with
        sales := st.remote.sales.filter fun s => s.id != i } }) ∧
    (st.authenticated = false →
      deleteSaleOp st i = .ok { st with localSt := { st.localSt with
        sales := .parsed ((readSlot st.localSt.sales).filter
          fun s => s.id != i) } }) ∧
    ∀ st2, deleteSaleOp st i = .ok st2 →
      st2.remote.stock = st.remote.stock ∧
      st2.remote.movements = st.remote.movements ∧
      st2.localSt.stock = st.localSt.stock ∧
      st2.localSt.movements = st.localSt.movements := by
  refine ⟨?_, ?_, ?_⟩
  · intro hauth
    simp [deleteSaleOp, hro, hauth]
  · intro hauth
    simp [deleteSaleOp, hro, hauth, saveSalesOp, getSalesOp]
  · intro st2 h2
    by_cases hauth : st.authenticated = true
    · rw [show deleteSaleOp st i = .ok { st with remote := { st.remote with
        sales := st.remote.sales.filter fun s => s.id != i } } from by
          simp [deleteSaleOp, hro, hauth]] at h2
      cases h2
      exact ⟨rfl, rfl, rfl, rfl⟩
    · rw [show deleteSaleOp st i = .ok { st with localSt := { st.localSt with
        sales := .parsed ((readSlot st.localSt.sales).filter
          fun s => s.id != i) } } from by
          simp only [Bool.not_eq_true] at hauth
          simp [deleteSaleOp, hro, hauth, saveSalesOp, getSalesOp]] at h2
      cases h2
      exact ⟨rfl, rfl, rfl, rfl⟩

/-- Unauthenticated state with local data used by the C8/C9/C10
witnesses and the C9 counterexample. -/
def localDataState : AppState :=
  { localSt :=
      { sales := .parsed [sampleSale], stock := .parsed [sampleItem],
        movements := .parsed [sampleMovement], readOnly := false,
        migrated := false },
    remote := { sales := [], stock := [], movements := [] },
    authenticated := false }

theorem deleteSale_frame_witness :
    (localDataState.authenticated = true →
      deleteSaleOp localDataState "s1" =
        .ok { localDataState with remote := { localDataState.remote with
          sales := localDataState.remote.sales.filter fun s => s.id != "s1" } }) ∧
    (localDataState.authenticated = false →
      deleteSaleOp localDataState "s1" =
        .ok { localDataState with localSt := { localDataState.localSt with
          sales := .parsed ((readSlot localDataState.localSt.sales).filter
            fun s => s.id != "s1") } }) ∧
    ∀ st2, deleteSaleOp localDataState "s1" = .ok st2 →
      st2.remote.stock = localDataState.remote.stock ∧
      st2.remote.movements = localDataState.remote.movements ∧
      st2.localSt.stock = localDataState.localSt.stock ∧
      st2.localSt.movements = localDataState.localSt.movements :=
  deleteSale_frame localDataState "s1" rfl

/-- C9 (amended): the migration is idempotent under the persisted flag —
with the flag set it is a no-op; after any successful run a second run
is a no-op; a successful run in an authenticated session sets the flag.
(An unauthenticated run also succeeds but leaves the flag unset, which
is what the counterexample below records.) -/
theorem migrate_idempotent (st : AppState) :
    (st.localSt.migrated = true → migrateDataOp st = .ok st) ∧
    (st.authenticated = false → migrateDataOp st = .ok st) ∧
    (st.authenticated = true → st.localSt.migrated = false →
      ∀ st2, migrateDataOp st = .ok st2 → st2.localSt.migrated = true) ∧
    ∀ st2, migrateDataOp st = .ok st2 → migrateDataOp st2 = .ok st2 := by
  refine ⟨?_, ?_, ?_, ?_⟩
  · intro hm
    simp [migrateDataOp, hm]
  · intro hauth
    by_cases hm : st.localSt.migrated = true
    · simp [migrateDataOp, hm]
    · simp only [Bool.not_eq_true] at hm
      simp [migrateDataOp, hm, hauth]
  · intro hauth hm st2 h2
    rw [migrateDataOp, hm, if_neg (by simp), if_pos hauth] at h2
    cases hmig : migrateLocalToRemote st with
    | error e => rw [hmig] at h2; cases h2
    | ok st3 =>
      rw [hmig] at h2
      cases h2
      rfl
  · intro st2 h2
    by_cases hm : st.localSt.migrated = true
    · rw [migrateDataOp, hm, if_pos rfl] at h2
      cases h2
      rw [migrateDataOp, hm, if_pos rfl]
    · simp only [Bool.not_eq_true] at hm
      by_cases hauth : st.authenticated = true
      · rw [migrateDataOp, hm, if_neg (by simp), if_pos hauth] at h2
        cases hmig : migrateLocalToRemote st with
        | error e => rw [hmig] at h2; cases h2
        | ok st3 =>
          rw [hmig] at h2
          cases h2
          rw [migrateDataOp]
          simp
      · simp only [Bool.not_eq_true] at hauth
        rw [migrateDataOp, hm, if_neg (by simp), hauth, if_neg (by simp)] at h2
        cases h2
        rw [migrateDataOp, hm, if_neg (by simp), hauth, if_neg (by simp)]

/-- C9 counterexample: a run in an unauthenticated session with local
data present and the flag unset completes successfully yet leaves the
flag unset, refuting "a successful run sets the flag to true" as
stated. -/
theorem migrate_unauth_counterexample :
    migrateDataOp localDataState = .ok localDataState ∧
    localDataState.localSt.migrated = false :=
  ⟨rfl, rfl⟩

theorem migrate_idempotent_witness :
    (localDataState.localSt.migrated = true →
      migrateDataOp localDataState = .ok localDataState) ∧
    (localDataState.authenticated = false →
      migrateDataOp localDataState = .ok localDataState) ∧
    (localDataState.authenticated = true →
      localDataState.localSt.migrated = false →
      ∀ st2, migrateDataOp localDataState = .ok st2 →
        st2.localSt.migrated = true) ∧
    ∀ st2, migrateDataOp localDataState = .ok st2 →
      migrateDataOp st2 = .ok st2 :=
  migrate_idempotent localDataState

/-- C10: in the unauthenticated fallback path the three read operations
are total (they are plain functions into lists; every throw site of the
source is inside a catch): an absent or unparseable backing key yields
the empty list, and a parseable one yields its records. -/
theorem localReads_total (st : AppState) (hauth : st.authenticated = false) :
    getSalesOp st = readSlot st.localSt.sales ∧
    getStockOp st = readSlot st.localSt.stock ∧
    getStockMovementsOp st = readSlot st.localSt.movements ∧
    (st.localSt.sales = .absent ∨ st.localSt.sales = .malformed →
      getSalesOp st = []) ∧
    (st.localSt.stock = .absent ∨ st.localSt.stock = .malformed →
      getStockOp st = []) ∧
    (st.localSt.movements = .absent ∨ st.localSt.movements = .malformed →
      getStockMovementsOp st = []) := by
  refine ⟨by simp [getSalesOp, hauth], by simp [getStockOp, hauth],
    by simp [getStockMovementsOp, hauth], ?_, ?_, ?_⟩
  · rintro (h | h) <;> simp [getSalesOp, hauth, h, readSlot]
  · rintro (h | h) <;> simp [getStockOp, hauth, h, readSlot]
  · rintro (h | h) <;> simp [getStockMovementsOp, hauth, h, readSlot]

/-- Unauthenticated state with an absent and a malformed slot, for the
fallback-read witness. -/
def corruptState : AppState :=
  { localSt :=
      { sales := .absent, stock := .malformed,
        movements := .parsed [sampleMovement], readOnly := false,
        migrated := false },
    remote := { sales := [], stock := [], movements := [] },
    authenticated := false }

theorem localReads_total_witness :
    getSalesOp corruptState = readSlot corruptState.localSt.sales ∧
    getStockOp corruptState = readSlot corruptState.localSt.stock ∧
    getStockMovementsOp corruptState =
      readSlot corruptState.localSt.movements ∧
    (corruptState.localSt.sales = .absent ∨
      corruptState.localSt.sales = .malformed → getSalesOp corruptState = []) ∧
    (corruptState.localSt.stock = .absent ∨
      corruptState.localSt.stock = .malformed → getStockOp corruptState = []) ∧
    (corruptState.localSt.movements = .absent ∨
      corruptState.localSt.movements = .malformed →
      getStockMovementsOp corruptState = []) :=
  localReads_total corruptState rfl

/-! ## Calendar arithmetic (proleptic Gregorian, as used by JavaScript
Date with the runtime in UTC) -/

/-- Epoch days of a civil date (era-based algorithm). -/
def daysFromCivil (y m d : Int) : Int :=
  let y2 := if m ≤ 2 then y - 1 else y
  let era := y2.fdiv 400
  let yoe := y2 - era * 400
  let doy := (153 * (m + (if 2 < m then -3 else 9)) + 2).fdiv 5 + d - 1
  let doe := yoe * 365 + yoe.fdiv 4 - yoe.fdiv 100 + doy
  era * 146097 + doe - 719468

/-- Civil date of an epoch-day count (inverse era-based algorithm). -/
def civilFromDays (z : Int) : Int × Int × Int :=
  let z2 := z + 719468
  let era := z2.fdiv 146097
  let doe := z2 - era * 146097
  let yoe := (doe - doe.fdiv 1460 + doe.fdiv 36524 - doe.fdiv 146096).fdiv 365
  let y := yoe + era * 400
  let doy := doe - (365 * yoe + yoe.fdiv 4 - yoe.fdiv 100)
  let mp := (5 * doy + 2).fdiv 153
  let d := doy - (153 * mp + 2).fdiv 5 + 1
  let m := mp + (if mp < 10 then 3 else -9)
  (if m ≤ 2 then y + 1 else y, m, d)

/-- Left-pad a digit string with zeros. -/
def padZeros (len : Nat) (cs : List Char) : List Char :=
  List.replicate (len - cs.length) '0' ++ cs

/-- The date part of `Date.prototype.toISOString` for a date given as
epoch days: `YYYY-MM-DD`, with the expanded six-digit form outside
years 0–9999. -/
def isoDateString (days : Int) : String :=
  let c := civilFromDays days
  let ystr :=
    if 0 ≤ c.1 ∧ c.1 ≤ 9999 then padZeros 4 (natChars c.1.toNat)
    else if c.1 < 0 then '-' :: padZeros 6 (natChars (-c.1).toNat)
    else '+' :: padZeros 6 (natChars c.1.toNat)
  String.mk (ystr ++ '-' :: padZeros 2 (natChars c.2.1.toNat) ++
    '-' :: padZeros 2 (natChars c.2.2.toNat))

/-- `new Date(year, month0, day)` (runtime in UTC), as epoch days:
years 0–99 are shifted to 1900–1999, the month is normalised into the
year, and day overflow is carried linearly. -/
def jsDateYMD (y m0 d : Int) : Int :=
  let y2 := if 0 ≤ y ∧ y ≤ 99 then y + 1900 else y
  daysFromCivil (y2 + m0.fdiv 12) (m0.emod 12 + 1) 1 + (d - 1)

/-- `parseInt` in base 10: skip whitespace, optional sign, longest digit
prefix; `none` models `NaN`.  (Hexadecimal prefixes are not modelled; no
date segment uses them.) -/
def parseIntJS (cs : List Char) : Option Int :=
  let sp := splitSign (cs.dropWhile isJsWhitespace)
  let ds := (takeDigits sp.2).1
  if ds.isEmpty then none
  else some ((if sp.1 then -1 else 1) * (digitsVal ds : Int))

/-- JavaScript `split` with a single-character separator. -/
def splitOnChar (sep : Char) : List Char → List (List Char)
  | [] => [[]]
  | c :: rest =>
    match splitOnChar sep rest with
    | [] => [[c]]
    | g :: gs => if c = sep then [] :: g :: gs else (c :: g) :: gs

/-- The millisecond bound beyond which a JavaScript Date is invalid. -/
def msLimit : Int := 8640000000000000

/-- The string branch of the date resolution in `validateSalesData`:
slash-delimited three-part strings are read day-first, hyphen-delimited
three-part strings are delegated to the engine parser `fp` when the
first segment has four characters and read day-first otherwise, and
everything else is delegated to `fp` (`new Date(string)`, modelled as an
oracle returning epoch days, `none` for an invalid date). -/
def parseDateStr (fp : String → Option Int) (s : String) : Option Int :=
  let cs := s.toList
  if containsChars cs ['/'] then
    match splitOnChar '/' cs with
    | [p1, p2, p3] =>
      match parseIntJS p1, parseIntJS p2, parseIntJS p3 with
      | some day, some month, some year => some (jsDateYMD year (month - 1) day)
      | _, _, _ => none
    | _ => fp s
  else if containsChars cs ['-'] then
    match splitOnChar '-' cs with
    | [p1, p2, p3] =>
      if p1.length = 4 then fp s
      else
        match parseIntJS p1, parseIntJS p2, parseIntJS p3 with
        | some day, some month, some year =>
          some (jsDateYMD year (month - 1) day)
        | _, _, _ => none
    | _ => fp s
  else fp s

/-! ## Row validation (Import component, validateSalesData) -/

/-- A spreadsheet cell as delivered by the sheet-to-JSON conversion:
a number or a string (boolean cells and date objects do not occur with
the conversion options used). -/
inductive Cell where
  | num (q : Rat)
  | str (s : String)
deriving DecidableEq

/-- A row object: header key to cell value, keys distinct. -/
abbrev Row := List (String × Cell)

/-- Property lookup on a row object. -/
def rowLookup : List (String × Cell) → String → Option Cell
  | [], _ => none
  | (k, v) :: rest, h => if k = h then some v else rowLookup rest h

/-- Outcome of the date-conversion block of one row: a formatted
ISO-date string, an invalid date (reported "Date invalide"), or a thrown
range error (caught as "Erreur de traitement des données"). -/
inductive DateOutcome where
  | ok (iso : String)
  | invalid
  | thrown
deriving DecidableEq

/-- The date-conversion block: a numeric cell is an Excel serial date
converted through the 25569-day offset from the Unix epoch; a string
cell goes through `parseDateStr` followed by the invalid-date check. -/
def convertDateCell (fp : String → Option Int) : Cell → DateOutcome
  | .num v =>
    let ms := (v - 25569) * 86400000
    if |ms| ≤ (8640000000000000 : Rat) then
      .ok (isoDateString ⌊ms / 86400000⌋)
    else .thrown
  | .str s =>
    match parseDateStr fp s with
    | none => .invalid
    | some days =>
      if |days * 86400000| ≤ msLimit then .ok (isoDateString days)
      else .invalid

/-- `detectAndMapColumns`: extract, per mapped canonical field in mapping
order, the row value under the original header, keeping only values that
are present and not the empty string. -/
def detectAndMapColumns (row : Row) (hm : List (String × String)) :
    List (String × Cell) :=
  hm.foldl
    (fun m fv =>
      match rowLookup row fv.2 with
      | some v => if v ≠ Cell.str "" then m ++ [(fv.1, v)] else m
      | none => m) []

/-- JavaScript truthiness of a cell value. -/
def cellTruthy : Cell → Bool
  | .num q => !(q == 0)
  | .str s => !(s == "")

/-- The `!mapped.field` test: absent or falsy. -/
def mappedFalsy (m : List (String × Cell)) (f : String) : Bool :=
  match rowLookup m f with
  | none => true
  | some c => !cellTruthy c

/-- Access to a mapped value under a guard that guarantees presence (the
default is never consulted by a guarded caller). -/
def mappedGet (m : List (String × Cell)) (f : String) : Cell :=
  (rowLookup m f).getD (Cell.str "")

/-- Fraction part of a JavaScript `Number()` literal, consuming a
leading period. -/
def splitFrac : List Char → List Nat × List Char
  | [] => ([], [])
  | c :: r => if c = '.' then takeDigits r else ([], c :: r)

/-- Exponent suffix of a `Number()` literal: scale factor and remainder;
a malformed suffix is left unconsumed. -/
def splitExp : List Char → Rat × List Char
  | [] => (1, [])
  | c :: r =>
    if c = 'e' ∨ c = 'E' then
      let sp := splitSign r
      let ds := takeDigits sp.2
      if ds.1.isEmpty then (1, c :: r)
      else
        ((if sp.1 then 1 / (10 : Rat) ^ digitsVal ds.1
          else (10 : Rat) ^ digitsVal ds.1), ds.2)
    else (1, c :: r)

/-- `Number()` conversion of a string: whitespace-only is 0, otherwise
the whole string must be a decimal literal; `none` models `NaN`.
(Hexadecimal and `Infinity` forms are not modelled.) -/
def numberFromChars (cs : List Char) : Option Rat :=
  let t := jsTrimChars cs
  if t.isEmpty then some 0
  else
    let sp := splitSign t
    let ip := takeDigits sp.2
    let fr := splitFrac ip.2
    let ex := splitExp fr.2
    if ip.1.isEmpty ∧ fr.1.isEmpty then none
    else if ex.2.isEmpty then
      some ((if sp.1 then -1 else 1) *
        ((digitsVal ip.1 : Rat) + fracVal fr.1) * ex.1)
    else none

/-- `Number(cell)`. -/
def numberJS : Cell → Option Rat
  | .num q => some q
  | .str s => numberFromChars s.toList

/-- `parseAmount` at cell level (a number is returned unchanged). -/
def parseAmountCell : Cell → Rat
  | .num q => q
  | .str s => parseAmountStr s

/-- `toString()` of a cell.  For a nonzero number the exact JavaScript
rendering is reproduced for values with a terminating decimal expansion
(every value the import pipeline produces); the validator inspects this
string only under a guard forcing the value to zero, or to build the
textual fields of the sale record. -/
def cellToString : Cell → String
  | .str s => s
  | .num q =>
    if q = 0 then "0"
    else
      match (List.range 21).find? (fun k => (q * (10 : Rat) ^ k).den = 1) with
      | some k =>
        let n := (q * (10 : Rat) ^ k).num.natAbs
        let sign : List Char := if q < 0 then ['-'] else []
        if k = 0 then String.mk (sign ++ natChars n)
        else
          let digits := padZeros (k + 1) (natChars n)
          String.mk (sign ++ digits.take (digits.length - k) ++
            '.' :: digits.drop (digits.length - k))
      | none => "~"

/-- The three string forms recognised as a legitimate zero amount. -/
def zeroLiterals : List String := ["0", "0,00", "0,00 €"]

/-- The "Montant invalide" guard: the parsed amount is zero but the
trimmed original text is not a recognised zero literal. -/
def amountInvalid (m : List (String × Cell)) : Bool :=
  parseAmountCell (mappedGet m "amount") == 0 &&
    !(zeroLiterals.any fun z =>
      String.mk (jsTrimChars (cellToString (mappedGet m "amount")).toList) == z)

/-- The per-row error strings collected before the record is built, in
source push order. -/
def rowErrors1 (m : List (String × Cell)) : List String :=
  (if mappedFalsy m "date" then ["Date manquante"] else []) ++
  (if mappedFalsy m "product" then ["Produit manquant"] else []) ++
  (if mappedFalsy m "quantity" then ["Quantité manquante"] else []) ++
  (if mappedFalsy m "amount" then ["Montant manquant"] else []) ++
  (if !mappedFalsy m "quantity" && (numberJS (mappedGet m "quantity")).isNone
    then ["Quantité invalide"] else []) ++
  (if !mappedFalsy m "amount" && amountInvalid m
    then ["Montant invalide"] else [])

/-- Optional text field of the sale record
(`mapped.x?.toString() || 'Non spécifié'`). -/
def optRowStr (m : List (String × Cell)) (f : String) : String :=
  match rowLookup m f with
  | some c => cellToString c
  | none => "Non spécifié"

/-- The sale record built from an error-free row. -/
def buildSale (m : List (String × Cell)) (iso : String) : Sale :=
  let quantity := (numberJS (mappedGet m "quantity")).getD 0
  let totalAmount := parseAmountCell (mappedGet m "amount")
  { id := "", date := iso, clientName := "Client Import",
    productName := cellToString (mappedGet m "product"),
    quantity := quantity,
    unitPrice := if 0 < quantity then totalAmount / quantity else 0,
    totalAmount := totalAmount,
    paymentMethod := "Non spécifié",
    notes := some "",
    seller := some (optRowStr m "seller"),
    register := some (optRowStr m "register"),
    category := some (optRowStr m "type") }

/-- Processing of one data row: the collected field errors if any,
otherwise the date conversion decides between the record, "Date
invalide", and the caught processing error. -/
def processRow (fp : String → Option Int) (hm : List (String × String))
    (row : Row) : Except (List String) Sale :=
  let m := detectAndMapColumns row hm
  let errs := rowErrors1 m
  if errs.isEmpty then
    match convertDateCell fp (mappedGet m "date") with
    | .invalid => .error ["Date invalide"]
    | .thrown => .error ["Erreur de traitement des données"]
    | .ok iso => .ok (buildSale m iso)
  else .error errs

/-- The forEach over the data rows, collecting sales and per-row error
entries in order; the reported row number is the data index plus 2. -/
def validateRows (fp : String → Option Int) (hm : List (String × String)) :
    Nat → List Row → List Sale × List (Nat × List String)
  | _, [] => ([], [])
  | idx, row :: rest =>
    let r := validateRows fp hm (idx + 1) rest
    match processRow fp hm row with
    | .ok s => (s :: r.1, r.2)
    | .error es => (r.1, (idx + 2, es) :: r.2)

/-- French display names of the required fields, for the missing-columns
message. -/
def frenchFieldName (f : String) : String :=
  if f = "product" then "Produit"
  else if f = "quantity" then "Quantité"
  else if f = "amount" then "Montant"
  else if f = "date" then "Date" else f

/-- Comma-join of the missing-field display names. -/
def joinComma : List String → String
  | [] => ""
  | [s] => s
  | s :: rest => s ++ ", " ++ joinComma rest

/-- `validateSalesData`: empty input yields nothing; otherwise the
headers of the first row are normalised once, a missing required column
aborts with a single row-1 error, and otherwise every row is processed
independently. -/
def validateSalesData (fp : String → Option Int) (data : List Row) :
    List Sale × List (Nat × List String) :=
  match data with
  | [] => ([], [])
  | r0 :: _ =>
    let hm := normalizeHeaders (r0.map Prod.fst)
    let missing := requiredFields.filter fun f => fieldFalsy hm f
    if missing.isEmpty then validateRows fp hm 0 data
    else ([], [(1, ["Colonnes manquantes dans le fichier: " ++
      joinComma (missing.map frenchFieldName)])])

/-! ## Lemmas for the date-resolution policy -/

theorem contains_single (cs : List Char) (c : Char) :
    containsChars cs [c] = cs.any fun x => x == c := by
  induction cs with
  | nil => rfl
  | cons x rest ih =>
    show (startsWithChars (x :: rest) [c] || containsChars rest [c]) = _
    rw [ih]
    show ((x == c && startsWithChars rest []) || rest.any fun y => y == c) = _
    cases rest <;> simp [startsWithChars, List.any_cons]

theorem splitOnChar_ne_nil (sep : Char) (cs : List Char) :
    splitOnChar sep cs ≠ [] := by
  cases cs with
  | nil => simp [splitOnChar]
  | cons c rest =>
    show (match splitOnChar sep rest with
      | [] => [[c]]
      | g :: gs => if c = sep then [] :: g :: gs else (c :: g) :: gs) ≠ []
    cases splitOnChar sep rest with
    | nil => simp
    | cons g gs =>
      by_cases h : c = sep <;> simp [h]

theorem splitOnChar_no_sep (sep : Char) (cs : List Char)
    (h : ∀ c ∈ cs, c ≠ sep) : splitOnChar sep cs = [cs] := by
  induction cs with
  | nil => rfl
  | cons c rest ih =>
    show (match splitOnChar sep rest with
      | [] => [[c]]
      | g :: gs => if c = sep then [] :: g :: gs else (c :: g) :: gs) = _
    rw [ih fun x hx => h x (List.mem_cons_of_mem _ hx)]
    exact if_neg (h c (List.mem_cons_self _ _))

theorem splitOnChar_append (sep : Char) (xs rest : List Char)
    (h : ∀ c ∈ xs, c ≠ sep) :
    splitOnChar sep (xs ++ sep :: rest) = xs :: splitOnChar sep rest := by
  induction xs with
  | nil =>
    show (match splitOnChar sep rest with
      | [] => [[sep]]
      | g :: gs => if sep = sep then [] :: g :: gs else (sep :: g) :: gs) = _
    obtain ⟨g, gs, hg⟩ := List.exists_cons_of_ne_nil (splitOnChar_ne_nil sep rest)
    rw [hg]
    exact if_pos rfl
  | cons x xs' ih =>
    show (match splitOnChar sep (xs' ++ sep :: rest) with
      | [] => [[x]]
      | g :: gs => if x = sep then [] :: g :: gs else (x :: g) :: gs) = _
    rw [ih fun c hc => h c (List.mem_cons_of_mem _ hc)]
    exact if_neg (h x (List.mem_cons_self _ _))

theorem natChars_shape (n : Nat) :
    ∀ c ∈ natChars n, ∃ d, d < 10 ∧ c = decDigitChar d := by
  intro c hc
  obtain ⟨x, hx, rfl⟩ := List.mem_map.mp hc
  exact ⟨x, natDigitsM_lt n x hx, rfl⟩

theorem padZeros_shape (k : Nat) (n : Nat) :
    ∀ c ∈ padZeros k (natChars n), ∃ d, d < 10 ∧ c = decDigitChar d := by
  intro c hc
  rcases List.mem_append.mp hc with h | h
  · exact ⟨0, by omega, by simpa using (List.eq_of_mem_replicate h)⟩
  · exact natChars_shape n c h

theorem decDigitChar_extra : ∀ d < 10,
    decDigitChar d ≠ '/' ∧ charDigit (decDigitChar d) = some d ∧
    isJsWhitespace (decDigitChar d) = false ∧
    decDigitChar d ≠ '-' ∧ decDigitChar d ≠ '+' := by decide

theorem parseIntJS_digits (n : Nat) : parseIntJS (natChars n) = some (n : Int) := by
  obtain ⟨d0, ds', hds⟩ := List.exists_cons_of_ne_nil (natDigitsM_ne_nil n)
  have hfacts := decDigitChar_extra d0 (natDigitsM_lt n d0 (by simp [hds]))
  have hdrop : (natChars n).dropWhile isJsWhitespace = natChars n := by
    apply dropWhile_eq_self_of_head
    intro c hc
    rw [show natChars n = decDigitChar d0 :: ds'.map decDigitChar from by
      simp [natChars, hds]] at hc
    simp only [List.head?_cons, Option.some_inj] at hc
    subst hc
    exact hfacts.2.2.1
  have hsign : splitSign (natChars n) = (false, natChars n) := by
    rw [show natChars n = decDigitChar d0 :: ds'.map decDigitChar from by
      simp [natChars, hds]]
    show (if decDigitChar d0 = '-' then _ else
      if decDigitChar d0 = '+' then _ else _) = _
    rw [if_neg hfacts.2.2.2.1, if_neg hfacts.2.2.2.2]
  have htake : takeDigits (natChars n) = (natDigitsM n, []) := by
    have := takeDigits_map_append (natDigitsM n) (natDigitsM_lt n) []
      (by intro c hc; simp at hc)
    simpa [natChars] using this
  rw [parseIntJS, hdrop, hsign]
  simp only [htake]
  rw [if_neg (by simp [hds])]
  rw [digitsVal_natDigitsM]
  simp

theorem daysFromCivil_day (y m d : Int) :
    daysFromCivil y m d = daysFromCivil y m 1 + (d - 1) := by
  simp only [daysFromCivil]
  ring

theorem jsDateYMD_in_range (y m d : Int) (hy : 100 ≤ y) (hm1 : 1 ≤ m)
    (hm12 : m ≤ 12) : jsDateYMD y (m - 1) d = daysFromCivil y m d := by
  have hy2 : ¬(0 ≤ y ∧ y ≤ 99) := by omega
  have hfd : (m - 1).fdiv 12 = 0 := by
    rw [Int.fdiv_eq_ediv _ (by omega : (0 : Int) ≤ 12)]
    exact Int.ediv_eq_zero_of_lt (by omega) (by omega)
  have hmod : (m - 1).emod 12 = m - 1 := Int.emod_eq_of_lt (by omega) (by omega)
  rw [jsDateYMD]
  simp only [hy2, if_false, hfd, hmod, add_zero]
  rw [show m - 1 + 1 = m by ring]
  rw [← daysFromCivil_day]

/-- A day-first slash-delimited date string `D/M/Y`. -/
def slashDateString (d m y : Nat) : String :=
  String.mk (natChars d ++ '/' :: (natChars m ++ '/' :: natChars y))

/-- A day-first hyphen-delimited date string `D-M-Y`. -/
def dashDateString (d m y : Nat) : String :=
  String.mk (natChars d ++ '-' :: (natChars m ++ '-' :: natChars y))

/-- An ISO `YYYY-MM-DD` input string with zero-padded segments. -/
def isoDateInput (y m d : Nat) : String :=
  String.mk (padZeros 4 (natChars y) ++ '-' ::
    (padZeros 2 (natChars m) ++ '-' :: padZeros 2 (natChars d)))

theorem natChars_not_sep (n : Nat) : ∀ c ∈ natChars n, c ≠ '/' ∧ c ≠ '-' := by
  intro c hc
  obtain ⟨dd, hdd, rfl⟩ := natChars_shape n c hc
  exact ⟨(decDigitChar_extra dd hdd).1, (decDigitChar_extra dd hdd).2.2.2.1⟩

theorem padZeros_not_sep (k n : Nat) :
    ∀ c ∈ padZeros k (natChars n), c ≠ '/' ∧ c ≠ '-' := by
  intro c hc
  obtain ⟨dd, hdd, rfl⟩ := padZeros_shape k n c hc
  exact ⟨(decDigitChar_extra dd hdd).1, (decDigitChar_extra dd hdd).2.2.2.1⟩

theorem parseDateStr_slash (fp : String → Option Int) (d m y : Nat) :
    parseDateStr fp (slashDateString d m y) =
      some (jsDateYMD (y : Int) ((m : Int) - 1) (d : Int)) := by
  have hlist : (slashDateString d m y).toList =
      natChars d ++ '/' :: (natChars m ++ '/' :: natChars y) := rfl
  have hcont : containsChars ((slashDateString d m y).toList) ['/'] = true := by
    rw [hlist, contains_single]
    exact List.any_eq_true.mpr ⟨'/', by simp, by simp⟩
  have hsplit : splitOnChar '/' ((slashDateString d m y).toList) =
      [natChars d, natChars m, natChars y] := by
    rw [hlist, splitOnChar_append _ _ _ (fun c hc => (natChars_not_sep d c hc).1),
      splitOnChar_append _ _ _ (fun c hc => (natChars_not_sep m c hc).1),
      splitOnChar_no_sep _ _ (fun c hc => (natChars_not_sep y c hc).1)]
  simp only [parseDateStr, hcont, if_true, hsplit, parseIntJS_digits]

theorem parseDateStr_dash (fp : String → Option Int) (d m y : Nat)
    (hlen : (natChars d).length ≠ 4) :
    parseDateStr fp (dashDateString d m y) =
      some (jsDateYMD (y : Int) ((m : Int) - 1) (d : Int)) := by
  have hlist : (dashDateString d m y).toList =
      natChars d ++ '-' :: (natChars m ++ '-' :: natChars y) := rfl
  have hnoslash : containsChars ((dashDateString d m y).toList) ['/'] = false := by
    rw [hlist, contains_single]
    refine List.any_eq_false.mpr ?_
    intro c hc
    simp only [beq_iff_eq]
    rcases List.mem_append.mp hc with h | h
    · exact (natChars_not_sep d c h).1
    · rcases List.mem_cons.mp h with rfl | h2
      · decide
      · rcases List.mem_append.mp h2 with h3 | h3
        · exact (natChars_not_sep m c h3).1
        · rcases List.mem_cons.mp h3 with rfl | h4
          · decide
          · exact (natChars_not_sep y c h4).1
  have hcont : containsChars ((dashDateString d m y).toList) ['-'] = true := by
    rw [hlist, contains_single]
    exact List.any_eq_true.mpr ⟨'-', by simp, by simp⟩
  have hsplit : splitOnChar '-' ((dashDateString d m y).toList) =
      [natChars d, natChars m, natChars y] := by
    rw [hlist, splitOnChar_append _ _ _ (fun c hc => (natChars_not_sep d c hc).2),
      splitOnChar_append _ _ _ (fun c hc => (natChars_not_sep m c hc).2),
      splitOnChar_no_sep _ _ (fun c hc => (natChars_not_sep y c hc).2)]
  simp only [parseDateStr, hnoslash, Bool.false_eq_true, if_false, hcont,
    if_true, hsplit, hlen, parseIntJS_digits]

theorem parseDateStr_iso (fp : String → Option Int) (y m d : Nat)
    (hlen : (padZeros 4 (natChars y)).length = 4) :
    parseDateStr fp (isoDateInput y m d) = fp (isoDateInput y m d) := by
  have hlist : (isoDateInput y m d).toList =
      padZeros 4 (natChars y) ++ '-' ::
        (padZeros 2 (natChars m) ++ '-' :: padZeros 2 (natChars d)) := rfl
  have hnoslash : containsChars ((isoDateInput y m d).toList) ['/'] = false := by
    rw [hlist, contains_single]
    refine List.any_eq_false.mpr ?_
    intro c hc
    simp only [beq_iff_eq]
    rcases List.mem_append.mp hc with h | h
    · exact (padZeros_not_sep 4 y c h).1
    · rcases List.mem_cons.mp h with rfl | h2
      · decide
      · rcases List.mem_append.mp h2 with h3 | h3
        · exact (padZeros_not_sep 2 m c h3).1
        · rcases List.mem_cons.mp h3 with rfl | h4
          · decide
          · exact (padZeros_not_sep 2 d c h4).1
  have hcont : containsChars ((isoDateInput y m d).toList) ['-'] = true := by
    rw [hlist, contains_single]
    exact List.any_eq_true.mpr ⟨'-', by simp, by simp⟩
  have hsplit : splitOnChar '-' ((isoDateInput y m d).toList) =
      [padZeros 4 (natChars y), padZeros 2 (natChars m),
        padZeros 2 (natChars d)] := by
    rw [hlist,
      splitOnChar_append _ _ _ (fun c hc => (padZeros_not_sep 4 y c hc).2),
      splitOnChar_append _ _ _ (fun c hc => (padZeros_not_sep 2 m c hc).2),
      splitOnChar_no_sep _ _ (fun c hc => (padZeros_not_sep 2 d c hc).2)]
  simp only [parseDateStr, hnoslash, Bool.false_eq_true, if_false, hcont,
    if_true, hsplit, hlen]

/-- C6: the date-resolution policy.  A numeric cell within the valid
range is an Excel serial day count, converted through the fixed offset
25569 from the Unix epoch.  A slash-delimited three-segment string, and
a hyphen-delimited one whose first segment does not have four
characters, are read day-first (the first segment is the day).  A
hyphen-delimited string with a four-character first segment, and any
string without the two delimiters, fall through to the engine date
parser.  An unparseable date yields the "Date invalide" row error
instead of a record. -/
theorem date_resolution_policy (fp : String → Option Int) :
    (∀ v : Rat, |(v - 25569) * 86400000| ≤ (8640000000000000 : Rat) →
      convertDateCell fp (Cell.num v) = .ok (isoDateString (⌊v⌋ - 25569))) ∧
    (∀ d m y : Nat, 1 ≤ m → m ≤ 12 → 100 ≤ y →
      |daysFromCivil y m d * 86400000| ≤ msLimit →
      convertDateCell fp (Cell.str (slashDateString d m y)) =
        .ok (isoDateString (daysFromCivil y m d))) ∧
    (∀ d m y : Nat, 1 ≤ m → m ≤ 12 → 100 ≤ y →
      (natChars d).length ≠ 4 →
      |daysFromCivil y m d * 86400000| ≤ msLimit →
      convertDateCell fp (Cell.str (dashDateString d m y)) =
        .ok (isoDateString (daysFromCivil y m d))) ∧
    (∀ y m d : Nat, (padZeros 4 (natChars y)).length = 4 →
      parseDateStr fp (isoDateInput y m d) = fp (isoDateInput y m d)) ∧
    (∀ s : String, containsChars s.toList ['/'] = false →
      containsChars s.toList ['-'] = false → parseDateStr fp s = fp s) ∧
    (∀ s : String, parseDateStr fp s = none →
      convertDateCell fp (Cell.str s) = .invalid) ∧
    (∀ hm row, rowErrors1 (detectAndMapColumns row hm) = [] →
      convertDateCell fp (mappedGet (detectAndMapColumns row hm) "date") =
        .invalid →
      processRow fp hm row = .error ["Date invalide"]) := by
  refine ⟨?_, ?_, ?_, ?_, ?_, ?_, ?_⟩
  · intro v hv
    simp only [convertDateCell]
    rw [if_pos hv]
    have h86 : ((86400000 : Rat)) ≠ 0 := by norm_num
    rw [mul_div_cancel_right₀ _ h86]
    rw [show (25569 : Rat) = ((25569 : Int) : Rat) from by norm_num,
      Int.floor_sub_int]
  · intro d m y hm1 hm12 hy hr
    have hjd : jsDateYMD (y : Int) ((m : Int) - 1) (d : Int) =
        daysFromCivil y m d :=
      jsDateYMD_in_range _ _ _ (by exact_mod_cast hy) (by exact_mod_cast hm1)
        (by exact_mod_cast hm12)
    simp only [convertDateCell, parseDateStr_slash, hjd]
    rw [if_pos hr]
  · intro d m y hm1 hm12 hy hlen hr
    have hjd : jsDateYMD (y : Int) ((m : Int) - 1) (d : Int) =
        daysFromCivil y m d :=
      jsDateYMD_in_range _ _ _ (by exact_mod_cast hy) (by exact_mod_cast hm1)
        (by exact_mod_cast hm12)
    simp only [convertDateCell, parseDateStr_dash fp d m y hlen, hjd]
    rw [if_pos hr]
  · exact parseDateStr_iso fp
  · intro s h1 h2
    simp only [parseDateStr, h1, Bool.false_eq_true, if_false, h2]
  · intro s hs
    simp only [convertDateCell, hs]
  · intro hm row herr hconv
    simp only [processRow, herr, List.isEmpty_nil, if_true, hconv]

/-- Oracle used by the date-policy witness (an always-failing engine
parser; conjuncts that need a successful engine parse are exercised
through the delegation conjunct). -/
def noOracle : String → Option Int := fun _ => none

theorem date_resolution_policy_witness :
    convertDateCell noOracle (Cell.num 45020) =
      .ok (isoDateString (⌊(45020 : Rat)⌋ - 25569)) ∧
    convertDateCell noOracle (Cell.str (slashDateString 3 4 2023)) =
      .ok (isoDateString (daysFromCivil 2023 4 3)) ∧
    convertDateCell noOracle (Cell.str (dashDateString 3 4 2023)) =
      .ok (isoDateString (daysFromCivil 2023 4 3)) ∧
    parseDateStr noOracle (isoDateInput 2023 4 3) =
      noOracle (isoDateInput 2023 4 3) ∧
    parseDateStr noOracle "avril" = noOracle "avril" ∧
    convertDateCell noOracle (Cell.str "avril") = DateOutcome.invalid :=
  have h := date_resolution_policy noOracle
  ⟨h.1 45020 (by norm_num),
   h.2.1 3 4 2023 (by decide) (by decide) (by decide) (by decide),
   h.2.2.1 3 4 2023 (by decide) (by decide) (by decide) (by decide) (by decide),
   h.2.2.2.1 2023 4 3 (by decide),
   h.2.2.2.2.1 "avril" (by decide) (by decide),
   h.2.2.2.2.2.1 "avril" (by decide)⟩

/-! ## Lemmas for the row validator -/

theorem validateRows_eq (fp : String → Option Int)
    (hm : List (String × String)) (rows : List Row) : ∀ idx,
    validateRows fp hm idx rows =
      (rows.filterMap fun row => (processRow fp hm row).toOption,
        (rows.enumFrom idx).filterMap fun ir =>
          match processRow fp hm ir.2 with
          | .error es => some (ir.1 + 2, es)
          | .ok _ => none) := by
  induction rows with
  | nil => intro idx; rfl
  | cons row rest ih =>
    intro idx
    show (match processRow fp hm row with
      | .ok s => (s :: (validateRows fp hm (idx + 1) rest).1,
          (validateRows fp hm (idx + 1) rest).2)
      | .error es => ((validateRows fp hm (idx + 1) rest).1,
          (idx + 2, es) :: (validateRows fp hm (idx + 1) rest).2)) = _
    rw [ih (idx + 1)]
    cases hp : processRow fp hm row with
    | ok s =>
      simp [List.filterMap_cons, hp, List.enumFrom_cons, Except.toOption]
    | error es =>
      simp [List.filterMap_cons, hp, List.enumFrom_cons, Except.toOption]

theorem ite_singleton_eq_nil {c : Prop} [Decidable c] {x : String}
    (h : (if c then [x] else []) = []) : ¬c := by
  intro hc
  rw [if_pos hc] at h
  cases h

theorem rowErrors1_eq_nil (m : List (String × Cell))
    (h : rowErrors1 m = []) :
    mappedFalsy m "date" = false ∧ mappedFalsy m "product" = false ∧
    mappedFalsy m "quantity" = false ∧ mappedFalsy m "amount" = false ∧
    (!mappedFalsy m "quantity" &&
      (numberJS (mappedGet m "quantity")).isNone) = false ∧
    (!mappedFalsy m "amount" && amountInvalid m) = false := by
  rw [rowErrors1] at h
  simp only [List.append_eq_nil] at h
  obtain ⟨⟨⟨⟨⟨h1, h2⟩, h3⟩, h4⟩, h5⟩, h6⟩ := h
  refine ⟨?_, ?_, ?_, ?_, ?_, ?_⟩
  · exact Bool.not_eq_true _ |>.mp (ite_singleton_eq_nil h1)
  · exact Bool.not_eq_true _ |>.mp (ite_singleton_eq_nil h2)
  · exact Bool.not_eq_true _ |>.mp (ite_singleton_eq_nil h3)
  · exact Bool.not_eq_true _ |>.mp (ite_singleton_eq_nil h4)
  · exact Bool.not_eq_true _ |>.mp (ite_singleton_eq_nil h5)
  · exact Bool.not_eq_true _ |>.mp (ite_singleton_eq_nil h6)

/-- C5: with all required columns covered by the header mapping, the
validator processes each row independently: the sales are exactly the
per-row successes in order, the error list has exactly one entry per
failed row carrying row number index+2 (so the first data row reports as
row 2), a failed row's error strings name each missing and each invalid
required field, and a successful row produces a record with no error
strings at all. -/
theorem validateSalesData_spec (fp : String → Option Int) (r0 : Row)
    (rest : List Row) (hm : List (String × String))
    (hhm : hm = normalizeHeaders (r0.map Prod.fst))
    (hcov : ∀ f ∈ requiredFields, fieldFalsy hm f = false) :
    validateSalesData fp (r0 :: rest) =
      ((r0 :: rest).filterMap fun row => (processRow fp hm row).toOption,
        ((r0 :: rest).enumFrom 0).filterMap fun ir =>
          match processRow fp hm ir.2 with
          | .error es => some (ir.1 + 2, es)
          | .ok _ => none) ∧
    (∀ row es, processRow fp hm row = .error es →
      es ≠ [] ∧
      (mappedFalsy (detectAndMapColumns row hm) "date" = true →
        "Date manquante" ∈ es) ∧
      (mappedFalsy (detectAndMapColumns row hm) "product" = true →
        "Produit manquant" ∈ es) ∧
      (mappedFalsy (detectAndMapColumns row hm) "quantity" = true →
        "Quantité manquante" ∈ es) ∧
      (mappedFalsy (detectAndMapColumns row hm) "amount" = true →
        "Montant manquant" ∈ es) ∧
      ((!mappedFalsy (detectAndMapColumns row hm) "quantity" &&
        (numberJS (mappedGet (detectAndMapColumns row hm) "quantity")).isNone) =
          true → "Quantité invalide" ∈ es) ∧
      ((!mappedFalsy (detectAndMapColumns row hm) "amount" &&
        amountInvalid (detectAndMapColumns row hm)) = true →
          "Montant invalide" ∈ es)) ∧
    (∀ row s, processRow fp hm row = .ok s →
      rowErrors1 (detectAndMapColumns row hm) = []) := by
  refine ⟨?_, ?_, ?_⟩
  · have hmiss : requiredFields.filter
        (fun f => fieldFalsy (normalizeHeaders (r0.map Prod.fst)) f) = [] := by
      rw [List.filter_eq_nil_iff]
      intro f hf
      rw [← hhm]
      simp [hcov f hf]
    show (if (requiredFields.filter fun f =>
        fieldFalsy (normalizeHeaders (r0.map Prod.fst)) f).isEmpty
      then validateRows fp (normalizeHeaders (r0.map Prod.fst)) 0 (r0 :: rest)
      else _) = _
    rw [hmiss]
    show validateRows fp (normalizeHeaders (r0.map Prod.fst)) 0 (r0 :: rest) = _
    rw [← hhm, validateRows_eq]
  · intro row es hp
    rw [processRow] at hp
    by_cases he : (rowErrors1 (detectAndMapColumns row hm)).isEmpty = true
    · rw [if_pos he] at hp
      have hnil : rowErrors1 (detectAndMapColumns row hm) = [] :=
        List.isEmpty_iff.mp he
      obtain ⟨f1, f2, f3, f4, f5, f6⟩ := rowErrors1_eq_nil _ hnil
      cases hc : convertDateCell fp
          (mappedGet (detectAndMapColumns row hm) "date") with
      | ok iso => rw [hc] at hp; cases hp
      | invalid =>
        rw [hc] at hp
        cases hp
        refine ⟨by simp, ?_, ?_, ?_, ?_, ?_, ?_⟩ <;>
          · intro hflag
            simp_all
      | thrown =>
        rw [hc] at hp
        cases hp
        refine ⟨by simp, ?_, ?_, ?_, ?_, ?_, ?_⟩ <;>
          · intro hflag
            simp_all
    · rw [if_neg he] at hp
      cases hp
      have hne : rowErrors1 (detectAndMapColumns row hm) ≠ [] := by
        intro h0
        rw [h0] at he
        exact he rfl
      refine ⟨hne, ?_, ?_, ?_, ?_, ?_, ?_⟩ <;>
        · intro hflag
          rw [rowErrors1]
          simp [hflag]
  · intro row s hp
    rw [processRow] at hp
    by_cases he : (rowErrors1 (detectAndMapColumns row hm)).isEmpty = true
    · exact List.isEmpty_iff.mp he
    · rw [if_neg he] at hp
      cases hp

/-- A well-formed import row for the validator witness. -/
def c5row : Row :=
  [("Produit", Cell.str "Coca-Cola"), ("Quantité", Cell.num 5),
   ("Montant", Cell.str "10,00 €"), ("Date", Cell.str "03/04/2023")]

theorem validateSalesData_spec_witness :
    validateSalesData noOracle (c5row :: []) =
      ((c5row :: []).filterMap fun row =>
          (processRow noOracle (normalizeHeaders (c5row.map Prod.fst))
            row).toOption,
        ((c5row :: []).enumFrom 0).filterMap fun ir =>
          match processRow noOracle (normalizeHeaders (c5row.map Prod.fst))
              ir.2 with
          | .error es => some (ir.1 + 2, es)
          | .ok _ => none) ∧
    (∀ row es, processRow noOracle (normalizeHeaders (c5row.map Prod.fst))
        row = .error es →
      es ≠ [] ∧
      (mappedFalsy (detectAndMapColumns row
          (normalizeHeaders (c5row.map Prod.fst))) "date" = true →
        "Date manquante" ∈ es) ∧
      (mappedFalsy (detectAndMapColumns row
          (normalizeHeaders (c5row.map Prod.fst))) "product" = true →
        "Produit manquant" ∈ es) ∧
      (mappedFalsy (detectAndMapColumns row
          (normalizeHeaders (c5row.map Prod.fst))) "quantity" = true →
        "Quantité manquante" ∈ es) ∧
      (mappedFalsy (detectAndMapColumns row
          (normalizeHeaders (c5row.map Prod.fst))) "amount" = true →
        "Montant manquant" ∈ es) ∧
      ((!mappedFalsy (detectAndMapColumns row
          (normalizeHeaders (c5row.map Prod.fst))) "quantity" &&
        (numberJS (mappedGet (detectAndMapColumns row
          (normalizeHeaders (c5row.map Prod.fst))) "quantity")).isNone) =
          true → "Quantité invalide" ∈ es) ∧
      ((!mappedFalsy (detectAndMapColumns row
          (normalizeHeaders (c5row.map Prod.fst))) "amount" &&
        amountInvalid (detectAndMapColumns row
          (normalizeHeaders (c5row.map Prod.fst)))) = true →
          "Montant invalide" ∈ es)) ∧
    (∀ row s, processRow noOracle (normalizeHeaders (c5row.map Prod.fst))
        row = .ok s →
      rowErrors1 (detectAndMapColumns row
        (normalizeHeaders (c5row.map Prod.fst))) = []) :=
  validateSalesData_spec noOracle c5row []
    (normalizeHeaders (c5row.map Prod.fst)) rfl (by decide)

end SuiviVentes
